import Mathlib

/-!
Verification of the heuristic resolution engine of the multi-magnet
forum script: release-title parsing, episode-code extraction, thread-id
caching, needed-episode resolution and the magnet keep/skip/replace
decision.  Every definition is a shallow embedding of the corresponding
Python function in `src/extractors/mircrew_extractor.py` or
`src/main.py`; the Python regular expressions are hand-compiled to
character-list scanners with the same matching semantics (leftmost
match, greedy repetition, `re.IGNORECASE` where the source sets it,
ASCII reading of `\s`, `\d`, `\w`).
-/

namespace Mircrew

/-! ## Character classes and number formatting -/

/-- Python `\s` (ASCII): space, tab, newline, carriage return, vertical tab, form feed. -/
def isWs (c : Char) : Bool :=
  c = ' ' || c = '\t' || c = '\n' || c = '\r' || c = '\x0b' || c = '\x0c'

/-- Python `\d` (ASCII digits). -/
def isDig (c : Char) : Bool := '0' ≤ c && c ≤ '9'

/-- Python `\w` (ASCII): letters, digits, underscore. -/
def isWord (c : Char) : Bool := c.isAlpha || isDig c || c = '_'

/-- Case-insensitive character comparison, for `re.IGNORECASE`. -/
def ciEq (a b : Char) : Bool := a.toLower == b.toLower

/-- Digit character of `n < 10`. -/
def digitCh (n : Nat) : Char := Char.ofNat (48 + n)

/-- Decimal digits of `n` (fuel-indexed so that the kernel can evaluate it). -/
def natCharsAux : Nat → Nat → List Char
  | 0, _ => []
  | fuel + 1, n => if n < 10 then [digitCh n] else natCharsAux fuel (n / 10) ++ [digitCh (n % 10)]

/-- Decimal representation of a natural number, as Python `str`/`"%d"`. -/
def natChars (n : Nat) : List Char := natCharsAux (n + 1) n

/-- Python `"%02d"`: pad to at least two digits with a leading zero. -/
def pad2 (n : Nat) : List Char := if n < 10 then '0' :: natChars n else natChars n

/-- The normalized full episode code `f"S{season:02d}E{episode:02d}"`. -/
def fmtSE (season episode : Nat) : List Char := 'S' :: pad2 season ++ 'E' :: pad2 episode

/-- The season-pack code `f"S{season:02d}E00"`. -/
def fmtSeasonPack (season : Nat) : List Char := 'S' :: pad2 season ++ ['E', '0', '0']

/-- The bare episode code `f"E{episode:02d}"`. -/
def fmtBareEp (episode : Nat) : List Char := 'E' :: pad2 episode

/-! ## ThreadCache

Embedding of the thread-id cache of `MIRCrewExtractor`
(`mircrew_extractor.py`): an insertion-ordered string-keyed dictionary,
as Python `dict`.  Timestamps are modelled as natural numbers counting
days, so `datetime.now() - timedelta(days=180)` becomes the comparison
`t + 180 < now`.  A stored value is either the current dict format
(`thread_id` plus a timestamp that may be valid, malformed, or absent)
or the legacy bare-string format. -/

inductive TStamp
  | valid (t : Nat)
  | invalid
  | missing
deriving DecidableEq, Repr

inductive CacheVal
  | modern (tid : String) (ts : TStamp)
  | legacy (tid : String)
deriving DecidableEq, Repr

/-- The cache dictionary: association list in insertion order, unique keys. -/
abbrev Cache := List (String × CacheVal)

/-- `timedelta(days=180)`, the 6-month expiry used throughout the cache. -/
def CACHE_EXPIRY : Nat := 180

/-- `self.cache_max_size = 100`. -/
def CACHE_MAX_SIZE : Nat := 100

/-- Python dict lookup (`dict.get`). -/
def plookup (k : String) : Cache → Option CacheVal
  | [] => none
  | (k2, v) :: t => if k2 = k then some v else plookup k t

/-- Python `del dict[key]`. -/
def pdelete (k : String) (c : Cache) : Cache :=
  c.filter (fun e => !(e.1 == k))

/-- Python dict assignment `dict[key] = v`: replace in place if the key
exists (keeping its position), otherwise append. -/
def dictInsert (k : String) (v : CacheVal) : Cache → Cache
  | [] => [(k, v)]
  | (k2, v2) :: t => if k2 = k then (k2, v) :: t else (k2, v2) :: dictInsert k v t

/-- Cache key normalization `f"{series_title} S{season_num:02d}"` of
`get_cached_thread_id` / `cache_thread_id` (with a numeric season the
`int(season)` conversion always succeeds). -/
def cacheKey (series : String) (season : Nat) : String :=
  series ++ " S" ++ ⟨pad2 season⟩

/-- Expiry test of `_clean_expired_entries`: dict entries with a valid
timestamp expire once strictly older than 180 days; entries with a
malformed or missing timestamp and legacy entries are always treated as
expired. -/
def entryExpired (now : Nat) : CacheVal → Bool
  | .modern _ (.valid t) => decide (t + CACHE_EXPIRY < now)
  | .modern _ .invalid => true
  | .modern _ .missing => true
  | .legacy _ => true

/-- `_clean_expired_entries`: delete every expired entry, preserving the
order of the remaining ones. -/
def clean_expired_entries (now : Nat) (c : Cache) : Cache :=
  c.filter (fun e => !entryExpired now e.2)

/-- Sort key of `_manage_cache_size`: the parsed timestamp for dict
entries, `datetime.min` (here `0`) for non-dict entries.  After
`_clean_expired_entries` every remaining entry has a valid timestamp,
so the `x[1]['timestamp']` access never fails. -/
def sortKey (v : CacheVal) : Nat :=
  match v with
  | .modern _ (.valid t) => t
  | _ => 0

/-- One step of a stable insertion sort by descending timestamp,
modelling Python's stable `sorted(..., reverse=True)`: an element moves
ahead of another only when its key is strictly larger. -/
def insertDesc (e : String × CacheVal) : Cache → Cache
  | [] => [e]
  | x :: t => if sortKey x.2 ≤ sortKey e.2 then e :: x :: t else x :: insertDesc e t

/-- Stable sort by timestamp descending (`sorted(entries, key=timestamp, reverse=True)`). -/
def sortByTsDesc (c : Cache) : Cache := c.foldr insertDesc []

/-- `_manage_cache_size`: purge expired entries; if the live count is
still at least `cache_max_size`, keep only the newest
`int(cache_max_size * 0.8)` entries, in descending-timestamp order. -/
def manage_cache_size (now : Nat) (c : Cache) : Cache :=
  let c2 := clean_expired_entries now c
  if CACHE_MAX_SIZE ≤ c2.length then (sortByTsDesc c2).take (CACHE_MAX_SIZE * 8 / 10)
  else c2

/-- `cache_thread_id`: guard against falsy arguments, manage the size,
then insert the new entry stamped `now`.  (The trailing `save_cache` is
file I/O and does not change the in-memory dictionary.) -/
def cache_thread_id (series : String) (season : Nat) (tid : String) (now : Nat)
    (c : Cache) : Cache :=
  if series = "" ∨ season = 0 ∨ tid = "" then c
  else dictInsert (cacheKey series season) (.modern tid (.valid now)) (manage_cache_size now c)

/-- `get_cached_thread_id`: returns the cached id together with the
updated dictionary.  An entry with a valid timestamp strictly older
than 180 days, or with a malformed timestamp, is deleted and reported
as a miss; otherwise the stored id is returned when truthy. -/
def get_cached_thread_id (series : String) (season : Nat) (now : Nat)
    (c : Cache) : Option String × Cache :=
  if series = "" ∨ season = 0 then (none, c)
  else
    let key := cacheKey series season
    match plookup key c with
    | none => (none, c)
    | some (.legacy tid) => if tid = "" then (none, c) else (some tid, c)
    | some (.modern tid ts) =>
      match ts with
      | .valid t =>
        if t + CACHE_EXPIRY < now then (none, pdelete key c)
        else if tid = "" then (none, c) else (some tid, c)
      | .invalid => (none, pdelete key c)
      | .missing => if tid = "" then (none, c) else (some tid, c)

/-- Distinct series names `"t1"`, `"t2"`, … used for the 101-insertion
cache scenario. -/
def c1Series (i : Nat) : String := ⟨'t' :: natChars i⟩

/-- The cache produced by 101 `cache_thread_id` calls with distinct
keys, where the `i`-th call happens at time `i` (fresh, monotonically
later timestamps; none expired). -/
def c1Run : Cache :=
  (List.range' 1 101).foldl (fun c i => cache_thread_id (c1Series i) 1 "x" i c) []

/-! ## MagnetFilterDecision

Embedding of the per-magnet decision taken by the loop of `main()`
(`src/main.py`, lines 376-423).  The loop's observable choices are:
remove the already-fetched original torrent and then evaluate the
magnet normally (`REPLACE`, the `i == 0` branch with no code
intersection while filtering); keep and count the original torrent
(`KEEP`, the `else` branch of the `i == 0` case, which `continue`s);
add the magnet (`INCLUDE`); or skip it (`SKIP`). -/

inductive MagnetDecision
  | KEEP
  | REPLACE
  | INCLUDE
  | SKIP
deriving DecidableEq, Repr

/-- `set.intersection`, on lists viewed as sets. -/
def listInter (a b : List String) : List String :=
  a.filter (fun x => b.contains x)

/-- The decision of one iteration of the `main()` magnet loop.
`isFirst` is `i == 0`, `hasFirstHash` the truthiness of
`first_magnet_hash`, `origRemoved` the `original_torrent_removed` flag,
`processAll` the `process_all_episodes` flag; `needed` is
`needed_episodes` and `codes` the magnet's `episode_codes_found`.
`filter_by_codes = bool(needed_episodes) and not process_all_episodes`. -/
def magnetFilterDecision (isFirst hasFirstHash origRemoved processAll : Bool)
    (needed codes : List String) : MagnetDecision :=
  let filterByCodes := !needed.isEmpty && !processAll
  if isFirst && hasFirstHash && !origRemoved then
    if filterByCodes && (listInter codes needed).isEmpty then .REPLACE
    else .KEEP
  else if processAll then .INCLUDE
  else if filterByCodes && (listInter codes needed).isEmpty then .SKIP
  else .INCLUDE

/-! ## EpisodeCodeExtractor: bulk extraction from magnet titles

`extract_episode_codes` is
`set(re.findall(r"S\d{2}E\d{2}", magnet_title, re.IGNORECASE))`.
The pattern has fixed length six and its interior characters (digits and
`E`/`e`) can never begin another match, so the non-overlapping
left-to-right scan of `re.findall` finds every matching substring. -/

/-- `S` case-insensitively. -/
def isSch (c : Char) : Bool := c = 'S' || c = 's'

/-- `E` case-insensitively. -/
def isEch (c : Char) : Bool := c = 'E' || c = 'e'

/-- Does a six-character window match `S\d{2}E\d{2}` (IGNORECASE)? -/
def isSECode : List Char → Bool
  | [a, b, c, d, e, f] => isSch a && isDig b && isDig c && isEch d && isDig e && isDig f
  | _ => false

/-- `re.findall(r"S\d{2}E\d{2}", ·, re.IGNORECASE)`: non-overlapping
left-to-right matches, each returned verbatim; windows shorter than six
characters cannot match. -/
def findallSE : List Char → List (List Char)
  | a :: b :: c :: d :: e :: f :: r =>
    if isSECode [a, b, c, d, e, f] then [a, b, c, d, e, f] :: findallSE r
    else findallSE (b :: c :: d :: e :: f :: r)
  | _ => []

/-- `extract_episode_codes` (`mircrew_extractor.py`, line 1128).  The
Python `set(...)` is modelled by the match list; all later uses
(`.intersection`) only depend on membership. -/
def extract_episode_codes (magnet_title : String) : List String :=
  (findallSE magnet_title.data).map (fun l => ⟨l⟩)

/-! ## parse_needed_episodes

Embedding of `parse_needed_episodes` (`mircrew_extractor.py`,
lines 1360-1381): `re.finditer` of `S(\d+)E(\d+)(?:-E(\d+))?` and then
of `(\d+)x(\d+)(?:-(\d+))?` over the path (IGNORECASE), expanding each
match's episode range into zero-padded codes collected into a set.
The `int(...)` conversions are modelled by the fallible `pyInt`, so the
function's `try`/`except` wrapper is visible as an `Except`. -/

/-- Greedy `\d+`-style split: longest digit prefix and the remainder. -/
def takeDigits (l : List Char) : List Char × List Char :=
  (l.takeWhile isDig, l.dropWhile isDig)

/-- Python `int(...)` on a string: succeeds exactly on non-empty
all-digit input (the only shapes the source ever feeds it). -/
def pyInt (l : List Char) : Except String Nat :=
  if l ≠ [] ∧ l.all isDig then
    .ok (l.foldl (fun acc c => acc * 10 + (c.toNat - 48)) 0)
  else .error "ValueError"

/-- Matcher for `S(\d+)E(\d+)(?:-E(\d+))?` (IGNORECASE) at the current
position: on success returns the three groups (third optional) and the
remainder after the match.  Greedy `\d+` needs no backtracking because
each following token is a non-digit. -/
def mPA : List Char → Option (List Char × List Char × Option (List Char) × List Char)
  | [] => none
  | c :: r =>
    if isSch c then
      match takeDigits r with
      | (g1, r1) =>
        if g1.isEmpty then none
        else
          match r1 with
          | [] => none
          | e :: r2 =>
            if isEch e then
              match takeDigits r2 with
              | (g2, r3) =>
                if g2.isEmpty then none
                else
                  match r3 with
                  | '-' :: e2 :: r4 =>
                    if isEch e2 then
                      match takeDigits r4 with
                      | (g3, r5) =>
                        if g3.isEmpty then some (g1, g2, none, r3)
                        else some (g1, g2, some g3, r5)
                    else some (g1, g2, none, r3)
                  | _ => some (g1, g2, none, r3)
            else none
    else none

/-- Matcher for `(\d+)x(\d+)(?:-(\d+))?` (IGNORECASE) at the current
position. -/
def mPB (l : List Char) : Option (List Char × List Char × Option (List Char) × List Char) :=
  match takeDigits l with
  | (g1, r1) =>
    if g1.isEmpty then none
    else
      match r1 with
      | [] => none
      | x :: r2 =>
        if x = 'x' || x = 'X' then
          match takeDigits r2 with
          | (g2, r3) =>
            if g2.isEmpty then none
            else
              match r3 with
              | '-' :: r4 =>
                match takeDigits r4 with
                | (g3, r5) =>
                  if g3.isEmpty then some (g1, g2, none, r3)
                  else some (g1, g2, some g3, r5)
              | _ => some (g1, g2, none, r3)
        else none

/-- `re.finditer`: scan left to right, continuing after the end of each
match, advancing one character where no match starts.  Fuel-indexed
with the input length (every step consumes at least one character) so
the kernel can evaluate it. -/
def finditScan
    (m : List Char → Option (List Char × List Char × Option (List Char) × List Char)) :
    Nat → List Char → List (List Char × List Char × Option (List Char))
  | 0, _ => []
  | _ + 1, [] => []
  | fuel + 1, c :: t =>
    match m (c :: t) with
    | some (g1, g2, g3, rest) => (g1, g2, g3) :: finditScan m fuel rest
    | none => finditScan m fuel t

/-- Python set insertion, on lists viewed as sets (first-insertion order). -/
def setAdd (s : List String) (x : String) : List String :=
  if s.contains x then s else s ++ [x]

/-- Python `range(a, b + 1)`. -/
def rangeNats (a b : Nat) : List Nat :=
  if a ≤ b then List.range' a (b + 1 - a) else []

/-- Range expansion of one `finditer` match: `season = int(group(1))`,
`start = int(group(2))`, `end = int(group(3)) if group(3) else start`,
then add `f"S{season:02d}E{ep:02d}"` for every `ep` in the range. -/
def addMatchEpisodes (acc : List String)
    (g : List Char × List Char × Option (List Char)) : Except String (List String) := do
  let season ← pyInt g.1
  let startEp ← pyInt g.2.1
  let endEp ←
    match g.2.2 with
    | some g3 => pyInt g3
    | none => pure startEp
  pure ((rangeNats startEp endEp).foldl (fun a ep => setAdd a ⟨fmtSE season ep⟩) acc)

/-- The body of `parse_needed_episodes` inside its `try`. -/
def parse_needed_core (path : List Char) : Except String (List String) := do
  let acc ← (finditScan mPA path.length path).foldlM addMatchEpisodes []
  (finditScan mPB path.length path).foldlM addMatchEpisodes acc

/-- `parse_needed_episodes`: the `except` arm returns the empty set. -/
def parse_needed_episodes (path : String) : List String :=
  match parse_needed_core path.data with
  | .ok s => s
  | .error _ => []

/-! ## NeededEpisodeResolver

Embedding of the three-tier needed-episode resolution of `main()`
(`src/main.py`, lines 328-357). -/

/-- Python `str.split(',')`. -/
def splitComma : List Char → List (List Char)
  | [] => [[]]
  | c :: t =>
    if c = ',' then [] :: splitComma t
    else
      match splitComma t with
      | h :: rest => (c :: h) :: rest
      | [] => [[c]]

/-- Python `str.strip()`: drop leading and trailing whitespace. -/
def pyStrip (l : List Char) : List Char :=
  ((l.dropWhile isWs).reverse.dropWhile isWs).reverse

/-- Tier 1 of the resolver, the `try` block: `int(season_number)` and
`[int(ep.strip()) for ep in episode_numbers.split(',') if ep.strip()]`,
building `{f"S{season:02d}E{ep:02d}" for ep in episodes}`. -/
def episodesFromVariables (seasonNumber episodeNumbers : List Char) :
    Except String (List String) := do
  let season ← pyInt seasonNumber
  let parts := ((splitComma episodeNumbers).map pyStrip).filter (fun p => !p.isEmpty)
  let eps ← parts.mapM pyInt
  pure (eps.foldl (fun a ep => setAdd a ⟨fmtSE season ep⟩) [])

/-- The needed-episode resolution of `main()`: tier 1 uses the explicit
Sonarr variables when both are non-empty (falling through on a
`ValueError`), tier 2 parses the episode file path, and tier 3 — when
both leave the set empty — turns on `process_all_episodes` whether or
not a season is recognizable in the release title (both branches of the
source set the flag; the `re.search` there only affects logging).
Returns `(needed_episodes, process_all_episodes)`. -/
def needed_episodes_resolver (seasonNumber episodeNumbers filePath _releaseTitle : String) :
    List String × Bool :=
  let needed : List String :=
    if seasonNumber ≠ "" ∧ episodeNumbers ≠ "" then
      match episodesFromVariables seasonNumber.data episodeNumbers.data with
      | .ok s => s
      | .error _ => []
    else []
  let needed2 : List String :=
    if needed.isEmpty ∧ filePath ≠ "" then parse_needed_episodes filePath else needed
  if needed2.isEmpty then (needed2, true) else (needed2, false)

/-! ## EpisodeCodeExtractor: the single-text pattern cascade

Embedding of the pattern-priority cascade at the heart of
`extract_episode_info` (`mircrew_extractor.py`, lines 1056-1123),
applied to one context text.  The source tries twelve patterns in a
fixed order and formats the first match's captured groups; only match
success and the captured groups are ever used, never the match span, so
trailing optional groups whose captures the source ignores (`of N`
tails, `-N` range tails) do not need to be consumed by the matchers.
The `int(...)` conversions are modelled by the fallible `pyInt` so the
surrounding `try`/`except` is visible as an `Except`. -/

/-- `\s*` (greedy; every token following it in the source patterns is a
non-space, so no backtracking is needed). -/
def skipWs (l : List Char) : List Char := l.dropWhile isWs

/-- `\s+`: at least one whitespace character, then greedily the rest. -/
def ws1 : List Char → Option (List Char)
  | c :: r => if isWs c then some (skipWs r) else none
  | [] => none

/-- Match a literal word case-insensitively (`re.IGNORECASE`). -/
def strCI : List Char → List Char → Option (List Char)
  | [], l => some l
  | _ :: _, [] => none
  | p :: ps, c :: cs => if ciEq p c then strCI ps cs else none

/-- `(\d+)`: a non-empty greedy digit group and the remainder. -/
def digits1 (l : List Char) : Option (List Char × List Char) :=
  match takeDigits l with
  | (g, r) => if g.isEmpty then none else some (g, r)

/-- `(?:st|nd|rd|th)` (IGNORECASE). -/
def ordSuffix : List Char → Option (List Char)
  | a :: b :: r =>
    if (ciEq a 's' && ciEq b 't') || (ciEq a 'n' && ciEq b 'd') ||
        (ciEq a 'r' && ciEq b 'd') || (ciEq a 't' && ciEq b 'h') then some r
    else none
  | _ => none

/-- Pattern 0, `S(\d+)E(\d+)(?:\s*of\s*\d+)?`: groups (season, episode). -/
def m_SxEy : List Char → Option (List Char × List Char)
  | [] => none
  | c :: r =>
    if isSch c then
      match digits1 r with
      | some (g1, e :: r2) =>
        if isEch e then (digits1 r2).map (fun p => (g1, p.1)) else none
      | _ => none
    else none

/-- Pattern 1, `(\d+)x(\d+)(?:-\d+)?`: groups (season, episode). -/
def m_NxM (l : List Char) : Option (List Char × List Char) :=
  match digits1 l with
  | some (g1, x :: r2) =>
    if x = 'x' || x = 'X' then (digits1 r2).map (fun p => (g1, p.1)) else none
  | _ => none

/-- Pattern 2, `(\d+)(?:st|nd|rd|th)\s+Season\s+Episode\s+(\d+)`. -/
def m_ordSeasonEp (l : List Char) : Option (List Char × List Char) := do
  let (g1, r1) ← digits1 l
  let r2 ← ordSuffix r1
  let r3 ← ws1 r2
  let r4 ← strCI ['s', 'e', 'a', 's', 'o', 'n'] r3
  let r5 ← ws1 r4
  let r6 ← strCI ['e', 'p', 'i', 's', 'o', 'd', 'e'] r5
  let r7 ← ws1 r6
  let (g2, _) ← digits1 r7
  pure (g1, g2)

/-- The shared tail `Ep(?:\.|\s)?\s*(\d+)` of patterns 3 and 4: after
`Ep`, an optional dot or whitespace character, any whitespace, then the
episode group.  (If the optional dot is consumed the following token is
a digit group; a failed digit after the dot cannot be rescued by the
empty alternative, so consuming the dot when present is exact.) -/
def epDotDigits (l : List Char) : Option (List Char) := do
  let r ← strCI ['e', 'p'] l
  let r2 :=
    match r with
    | '.' :: r3 => skipWs r3
    | _ => skipWs r
  let (g, _) ← digits1 r2
  pure g

/-- Pattern 3, `Season\s+(\d+)\s+Ep(?:\.|\s)?\s*(\d+)`. -/
def m_seasonWordEp (l : List Char) : Option (List Char × List Char) := do
  let r ← strCI ['s', 'e', 'a', 's', 'o', 'n'] l
  let r2 ← ws1 r
  let (g1, r3) ← digits1 r2
  let r4 ← ws1 r3
  let g2 ← epDotDigits r4
  pure (g1, g2)

/-- Pattern 4, `Stagione\s+(\d+)\s+Ep(?:\.|\s)?\s*(\d+)`. -/
def m_stagioneWordEp (l : List Char) : Option (List Char × List Char) := do
  let r ← strCI ['s', 't', 'a', 'g', 'i', 'o', 'n', 'e'] l
  let r2 ← ws1 r
  let (g1, r3) ← digits1 r2
  let r4 ← ws1 r3
  let g2 ← epDotDigits r4
  pure (g1, g2)

/-- Pattern 5, `Stagione\s*(\d+)`. -/
def m_stagioneOnly (l : List Char) : Option (List Char) := do
  let r ← strCI ['s', 't', 'a', 'g', 'i', 'o', 'n', 'e'] l
  let (g, _) ← digits1 (skipWs r)
  pure g

/-- Pattern 6, `Season\s*(\d+)`. -/
def m_seasonOnly (l : List Char) : Option (List Char) := do
  let r ← strCI ['s', 'e', 'a', 's', 'o', 'n'] l
  let (g, _) ← digits1 (skipWs r)
  pure g

/-- Pattern 7, `(\d+)(?:st|nd|rd|th)\s+Season`. -/
def m_ordSeason (l : List Char) : Option (List Char) := do
  let (g1, r1) ← digits1 l
  let r2 ← ordSuffix r1
  let r3 ← ws1 r2
  let _ ← strCI ['s', 'e', 'a', 's', 'o', 'n'] r3
  pure g1

/-- Core of pattern 8 after its prefix, `Ep\.?\s*(\d+)(?:-(\d+))?`:
`Ep`, optional dot, whitespace, episode group. -/
def m_epCore (l : List Char) : Option (List Char) := do
  let r ← strCI ['e', 'p'] l
  let r2 :=
    match r with
    | '.' :: r3 => skipWs r3
    | _ => skipWs r
  let (g, _) ← digits1 r2
  pure g

/-- Core of pattern 9 after its prefix, `Episodio\s+(\d+)(?:\s*-\s*(\d+))?`. -/
def m_episodioCore (l : List Char) : Option (List Char) := do
  let r ← strCI ['e', 'p', 'i', 's', 'o', 'd', 'i', 'o'] l
  let r2 ← ws1 r
  let (g, _) ← digits1 r2
  pure g

/-- Pattern 10, `Episode\s+(\d+)`. -/
def m_episodeWord (l : List Char) : Option (List Char) := do
  let r ← strCI ['e', 'p', 'i', 's', 'o', 'd', 'e'] l
  let r2 ← ws1 r
  let (g, _) ← digits1 r2
  pure g

/-- Pattern 11, `Ep\s+(\d+)`. -/
def m_epWs (l : List Char) : Option (List Char) := do
  let r ← strCI ['e', 'p'] l
  let r2 ← ws1 r
  let (g, _) ← digits1 r2
  pure g

/-- The continuation `\s*(\d+)` shared by the alternatives of the
season-context pattern. -/
def seasonCtxCont (r : List Char) : Option (List Char) :=
  (digits1 (skipWs r)).map Prod.fst

/-- The season-context pattern `S(?:tagione|eason)?\s*(\d+)` used by the
bare-episode branches: after `S`, try `tagione`, then `eason`, then the
empty alternative, each continued by `\s*(\d+)`; the first alternative
whose continuation succeeds wins, as under backtracking. -/
def m_seasonCtx : List Char → Option (List Char)
  | [] => none
  | c :: r =>
    if isSch c then
      let cont := seasonCtxCont
      match strCI ['t', 'a', 'g', 'i', 'o', 'n', 'e'] r with
      | some r2 =>
        match cont r2 with
        | some g => some g
        | none =>
          match strCI ['e', 'a', 's', 'o', 'n'] r with
          | some r3 =>
            match cont r3 with
            | some g => some g
            | none => cont r
          | none => cont r
      | none =>
        match strCI ['e', 'a', 's', 'o', 'n'] r with
        | some r3 =>
          match cont r3 with
          | some g => some g
          | none => cont r
        | none => cont r
    else none

/-- `re.search`: try the position matcher at each position left to
right; the first success wins. -/
def searchG {α : Type} (m : List Char → Option α) : List Char → Option α
  | [] => m []
  | c :: t =>
    match m (c :: t) with
    | some g => some g
    | none => searchG m t

/-- Scan for the `[^S]\b`-prefixed branch of patterns 8 and 9: at each
position, a character that is not a word character (a word boundary
before the following word character `E`, and necessarily not `S`),
then the core pattern. -/
def searchNWPrefix {α : Type} (m : List Char → Option α) : List Char → Option α
  | [] => none
  | c :: t =>
    if !isWord c then
      match m t with
      | some g => some g
      | none => searchNWPrefix m t
    else searchNWPrefix m t

/-- Search for `(?:^|[^S]\b)` followed by the core pattern: the
anchored-at-start alternative first (leftmost), then every
non-word-prefixed position. -/
def searchAnchoredOrNW {α : Type} (m : List Char → Option α) (l : List Char) : Option α :=
  match m l with
  | some g => some g
  | none => searchNWPrefix m l

/-- `Except.isOk`. -/
def exOk {α : Type} : Except String α → Bool
  | .ok _ => true
  | .error _ => false

/-- The branch result for a combined season+episode match:
`f"S{season:02d}E{episode:02d}"` from `int`-converted groups. -/
def branchSE (g1 g2 : List Char) : Except String String := do
  let season ← pyInt g1
  let episode ← pyInt g2
  pure ⟨fmtSE season episode⟩

/-- The branch result for a season-only match: `f"S{season:02d}E00"`. -/
def branchSeasonPack (g : List Char) : Except String String := do
  let season ← pyInt g
  pure ⟨fmtSeasonPack season⟩

/-- The `i >= 8` branch: search the same text for season context; with
context return a full code (converting the season first, as the
source does), otherwise a bare `f"E{episode:02d}"`. -/
def branchBareEp (text : List Char) (g : List Char) : Except String String :=
  match searchG m_seasonCtx text with
  | some gs => do
    let season ← pyInt gs
    let episode ← pyInt g
    pure ⟨fmtSE season episode⟩
  | none => do
    let episode ← pyInt g
    pure ⟨fmtBareEp episode⟩

/-- The twelve-pattern cascade of `extract_episode_info` on one text,
inside its `try`: the first pattern whose `re.search` succeeds
determines the result; no match yields `"Unknown"`. -/
def episode_info_core (text : List Char) : Except String String :=
  match searchG m_SxEy text with
  | some (g1, g2) => branchSE g1 g2
  | none =>
  match searchG m_NxM text with
  | some (g1, g2) => branchSE g1 g2
  | none =>
  match searchG m_ordSeasonEp text with
  | some (g1, g2) => branchSE g1 g2
  | none =>
  match searchG m_seasonWordEp text with
  | some (g1, g2) => branchSE g1 g2
  | none =>
  match searchG m_stagioneWordEp text with
  | some (g1, g2) => branchSE g1 g2
  | none =>
  match searchG m_stagioneOnly text with
  | some g => branchSeasonPack g
  | none =>
  match searchG m_seasonOnly text with
  | some g => branchSeasonPack g
  | none =>
  match searchG m_ordSeason text with
  | some g => branchSeasonPack g
  | none =>
  match searchAnchoredOrNW m_epCore text with
  | some g => branchBareEp text g
  | none =>
  match searchAnchoredOrNW m_episodioCore text with
  | some g => branchBareEp text g
  | none =>
  match searchG m_episodeWord text with
  | some g => branchBareEp text g
  | none =>
  match searchG m_epWs text with
  | some g => branchBareEp text g
  | none => .ok "Unknown"

/-- `extract_episode_info` restricted to one plain text: the `except`
arm returns `"Unknown"`. -/
def extract_episode_info_text (text : String) : String :=
  match episode_info_core text.data with
  | .ok v => v
  | .error _ => "Unknown"

/-! ## TitleParser and QueryStrategyGenerator

Embeddings of `_clean_release_title_for_search`,
`_extract_base_series_name`, `_extract_resolution`, `_extract_codec`,
`_extract_year`, `_extract_season_number`,
`_extract_enhanced_search_queries` and `_build_enhanced_search_queries`
(`mircrew_extractor.py`).  End-of-string anchors (`$`) are modelled at
the true end of the string (the source never feeds these functions
strings with trailing newlines). -/

/-- Case-insensitive equality of two character lists. -/
def ciEqList : List Char → List Char → Bool
  | [], [] => true
  | a :: as2, b :: bs => ciEq a b && ciEqList as2 bs
  | _, _ => false

/-- Does `l` end with `suf`, case-insensitively? -/
def ciSuffix (suf l : List Char) : Bool :=
  decide (suf.length ≤ l.length) && ciEqList suf (l.drop (l.length - suf.length))

/-- The file extensions of `re.sub(r'\.(mkv|mp4|avi|m4v|mov)$', '', ·)`,
with the leading dot. -/
def EXT_SUFFIXES : List (List Char) :=
  [['.', 'm', 'k', 'v'], ['.', 'm', 'p', '4'], ['.', 'a', 'v', 'i'],
   ['.', 'm', '4', 'v'], ['.', 'm', 'o', 'v']]

/-- Strip a trailing file extension (IGNORECASE, end-anchored). -/
def stripExt (l : List Char) : List Char :=
  if EXT_SUFFIXES.any (fun e => ciSuffix e l) then l.take (l.length - 4) else l

/-- Try the word-alternatives at the current position (IGNORECASE, in
source order), requiring a word boundary after the token: every
alternative ends in a word character, so the boundary holds exactly
when the following character is absent or a non-word character.
Returns the consumed original characters and the remainder. -/
def tryTokens (toks : List (List Char)) (l : List Char) : Option (List Char × List Char) :=
  match toks with
  | [] => none
  | t :: ts =>
    match strCI t l with
    | some rest =>
      match rest with
      | [] => some (l.take t.length, rest)
      | c :: _ => if isWord c then tryTokens ts l else some (l.take t.length, rest)
    | none => tryTokens ts l

/-- Global `re.sub` of boundary-guarded token alternatives with the
empty string.  `prevWord` tracks whether the previous character of the
original string is a word character (the word boundary before a token,
which always starts with a word character); every token ends in a word
character, so after a removal the tracker is set.  Fuel-indexed with
the input length (each step consumes at least one character). -/
def subTokensAux (toks : List (List Char)) : Nat → Bool → List Char → List Char
  | 0, _, l => l
  | _ + 1, _, [] => []
  | fuel + 1, prevWord, c :: t =>
    if !prevWord then
      match tryTokens toks (c :: t) with
      | some (_, rest) => subTokensAux toks fuel true rest
      | none => c :: subTokensAux toks fuel (isWord c) t
    else c :: subTokensAux toks fuel (isWord c) t

/-- The quality alternatives of
`re.sub(r'\b(1080p|720p|2160p|4K|UHD|BluRay|WEB-DL|HDTV)\b', '', ·, re.IGNORECASE)`. -/
def QUALITY_TOKENS : List (List Char) :=
  [['1', '0', '8', '0', 'p'], ['7', '2', '0', 'p'], ['2', '1', '6', '0', 'p'],
   ['4', 'K'], ['U', 'H', 'D'], ['B', 'l', 'u', 'R', 'a', 'y'],
   ['W', 'E', 'B', '-', 'D', 'L'], ['H', 'D', 'T', 'V']]

/-- `re.sub(r'-\w+$', '', ·)`: cut at the leftmost dash that is
followed only by one or more word characters up to the end. -/
def subDashWordEnd : List Char → List Char
  | [] => []
  | c :: t =>
    if c = '-' ∧ t ≠ [] ∧ t.all isWord then []
    else c :: subDashWordEnd t

/-- `re.sub(r'\s+', ' ', ·)`: collapse whitespace runs to one space
(fuel-indexed with the input length). -/
def collapseWsAux : Nat → List Char → List Char
  | 0, l => l
  | _ + 1, [] => []
  | fuel + 1, c :: t =>
    if isWs c then ' ' :: collapseWsAux fuel (t.dropWhile isWs)
    else c :: collapseWsAux fuel t

/-- `re.sub(r'\s+', ' ', ·)`. -/
def collapseWs (l : List Char) : List Char := collapseWsAux l.length l

/-- `_clean_release_title_for_search`: strip a trailing file extension,
remove quality tokens, strip a trailing `-GROUP`, collapse whitespace
and trim. -/
def clean_release_title_for_search (title : String) : String :=
  ⟨pyStrip (collapseWs (subDashWordEnd (subTokensAux QUALITY_TOKENS
    ((stripExt title.data).length + 1) false (stripExt title.data))))⟩

/-- The codec alternatives of the spec's closed codec set. -/
def CODEC_SET_TOKENS : List (List Char) :=
  [['H', '2', '6', '4'], ['H', '2', '6', '5'], ['x', '2', '6', '4'], ['x', '2', '6', '5'],
   ['A', 'V', 'C'], ['H', 'E', 'V', 'C'], ['X', 'v', 'i', 'D'], ['D', 'i', 'v', 'X']]

/-- The resolution alternatives of the spec's closed resolution set. -/
def RES_SET_TOKENS : List (List Char) :=
  [['4', '8', '0', 'p'], ['7', '2', '0', 'p'], ['1', '0', '8', '0', 'p'],
   ['2', '1', '6', '0', 'p'], ['4', 'K'], ['U', 'H', 'D']]

/-- Modelled from the spec (§4.2 item 2): the "cleaned" title is the
literal title with filename extensions, resolution tokens, codec
tokens, and a trailing release-group suffix (`-GROUPNAME`) stripped.
This is the specification's description of the second query strategy,
kept separate so it can be compared with the source's
`_clean_release_title_for_search`, which does not strip codec tokens. -/
def spec_cleaned_title (title : String) : String :=
  ⟨pyStrip (collapseWs (subDashWordEnd (subTokensAux (RES_SET_TOKENS ++ CODEC_SET_TOKENS)
    ((stripExt title.data).length + 1) false (stripExt title.data))))⟩

/-- Search for boundary-guarded token alternatives
(`re.search(r'\b(...)\b', ·, re.IGNORECASE)`), returning the matched
original characters.  `prevWord` tracks the word-ness of the previous
character. -/
def searchTokensAux (toks : List (List Char)) : Bool → List Char → Option (List Char)
  | _, [] => none
  | prevWord, c :: t =>
    match (if !prevWord then (tryTokens toks (c :: t)).map Prod.fst else none) with
    | some m => some m
    | none => searchTokensAux toks (isWord c) t

/-- The first-priority resolution alternatives of `_extract_resolution`. -/
def RES_TOKENS : List (List Char) :=
  [['1', '0', '8', '0', 'p'], ['7', '2', '0', 'p'], ['2', '1', '6', '0', 'p'],
   ['4', 'K'], ['U', 'H', 'D']]

/-- `\d{3,4}p` with a trailing word boundary, at the current position:
greedily four digits, backtracking to three, then `p`. -/
def m_dig34p (l : List Char) : Option (List Char) :=
  match l with
  | a :: b :: c :: rest =>
    if isDig a && isDig b && isDig c then
      match rest with
      | d :: p :: rest2 =>
        if isDig d ∧ (p = 'p' ∨ p = 'P') ∧ (rest2 = [] ∨ ∀ x ∈ rest2.take 1, ¬isWord x) then
          some [a, b, c, d, p]
        else if (d = 'p' ∨ d = 'P') ∧ (∀ x ∈ (p :: rest2).take 1, ¬isWord x) then
          some [a, b, c, d]
        else none
      | [d] =>
        if isDig d then none
        else if d = 'p' ∨ d = 'P' then some [a, b, c, d] else none
      | [] => none
    else none
  | _ => none

/-- Scan for `\b\d{3,4}p\b` (the second resolution pattern). -/
def searchDig34p : Bool → List Char → Option (List Char)
  | _, [] => none
  | prevWord, c :: t =>
    match (if !prevWord then m_dig34p (c :: t) else none) with
    | some m => some m
    | none => searchDig34p (isWord c) t

/-- `_extract_resolution`: `\b(1080p|720p|2160p|4K|UHD)\b`, then
`\b(\d{3,4}p)\b`, both IGNORECASE. -/
def extract_resolution (title : String) : Option String :=
  match searchTokensAux RES_TOKENS false title.data with
  | some m => some ⟨m⟩
  | none => (searchDig34p false title.data).map (fun m => ⟨m⟩)

/-- The codec alternatives of `_extract_codec`, first and second pattern. -/
def CODEC_TOKENS_1 : List (List Char) :=
  [['H', '2', '6', '4'], ['H', '2', '6', '5'], ['x', '2', '6', '4'], ['x', '2', '6', '5'],
   ['A', 'V', 'C'], ['H', 'E', 'V', 'C']]

/-- Second codec pattern alternatives. -/
def CODEC_TOKENS_2 : List (List Char) := [['X', 'v', 'i', 'D'], ['D', 'i', 'v', 'X']]

/-- `_extract_codec`: `\b(H264|H265|x264|x265|AVC|HEVC)\b`, then
`\b(XviD|DivX)\b`, both IGNORECASE. -/
def extract_codec (title : String) : Option String :=
  match searchTokensAux CODEC_TOKENS_1 false title.data with
  | some m => some ⟨m⟩
  | none => (searchTokensAux CODEC_TOKENS_2 false title.data).map (fun m => ⟨m⟩)

/-- `\b(19|20)\d{2}\b` at the current position (no IGNORECASE flag in
the source; the pattern is all digits anyway).  `match.group(0)` is the
four matched digits. -/
def m_year (l : List Char) : Option (List Char) :=
  match l with
  | a :: b :: c :: d :: rest =>
    if ((a = '1' ∧ b = '9') ∨ (a = '2' ∧ b = '0')) ∧ isDig c ∧ isDig d ∧
        (rest = [] ∨ ∀ x ∈ rest.take 1, ¬isWord x) then
      some [a, b, c, d]
    else none
  | _ => none

/-- Scan for the year pattern. -/
def searchYear : Bool → List Char → Option (List Char)
  | _, [] => none
  | prevWord, c :: t =>
    match (if !prevWord then m_year (c :: t) else none) with
    | some m => some m
    | none => searchYear (isWord c) t

/-- `_extract_year`. -/
def extract_year (title : String) : Option String :=
  (searchYear false title.data).map (fun m => ⟨m⟩)

/-- `S(\d+)`, the first pattern of `_extract_season_number`. -/
def m_Sdigits : List Char → Option (List Char)
  | [] => none
  | c :: r => if isSch c then (digits1 r).map Prod.fst else none

/-- `_extract_season_number`: `S(\d+)`, `Stagione\s*(\d+)`,
`Season\s*(\d+)`, `(\d+)(?:st|nd|rd|th)\s+Season`, `(\d+)x\d+`, in that
order, all IGNORECASE; the captured digits are returned as a string. -/
def extract_season_number (title : String) : Option String :=
  match searchG m_Sdigits title.data with
  | some g => some ⟨g⟩
  | none =>
  match searchG m_stagioneOnly title.data with
  | some g => some ⟨g⟩
  | none =>
  match searchG m_seasonOnly title.data with
  | some g => some ⟨g⟩
  | none =>
  match searchG m_ordSeason title.data with
  | some g => some ⟨g⟩
  | none => (searchG m_NxM title.data).map (fun p => ⟨p.1⟩)

/-! ### _extract_base_series_name -/

/-- `\s*\[.*?\]` at the current position: spaces, `[`, a lazy run of
non-`]` non-newline characters, `]`; returns the remainder. -/
def mBracket (l : List Char) : Option (List Char) :=
  match skipWs l with
  | c :: r2 => if c = '[' then bracketClose r2 else none
  | [] => none
where
  /-- Scan to the first `]`, failing on a newline (`.` does not match
  newlines) or the end. -/
  bracketClose : List Char → Option (List Char)
    | [] => none
    | ']' :: t => some t
    | '\n' :: _ => none
    | _ :: t => bracketClose t

/-- Global `re.sub(r'\s*\[.*?\]', '', ·)` (fuel-indexed with the input
length; every match consumes at least two characters). -/
def subBracketsAux : Nat → List Char → List Char
  | 0, l => l
  | _ + 1, [] => []
  | fuel + 1, c :: t =>
    match mBracket (c :: t) with
    | some rest => subBracketsAux fuel rest
    | none => c :: subBracketsAux fuel t

/-- `re.sub(r'\s*\[.*?\]', '', ·)`. -/
def subBrackets (l : List Char) : List Char := subBracketsAux l.length l

/-- `\s*\([^)]*\)\s*$` at the current position: spaces, `(`, non-`)`
characters, `)`, spaces, end of string. -/
def mTrailParen (l : List Char) : Bool :=
  match skipWs l with
  | c :: r2 =>
    if c = '(' then
      match r2.dropWhile (fun x => !(x = ')')) with
      | ')' :: r4 => (skipWs r4).isEmpty
      | _ => false
    else false
  | [] => false

/-- `re.sub(r'\s*\([^)]*\)\s*$', '', ·)`: cut at the leftmost position
where the end-anchored parenthetical matches. -/
def subTrailParens : List Char → List Char
  | [] => []
  | c :: t => if mTrailParen (c :: t) then [] else c :: subTrailParens t

/-- `S?\d*E\d+`, the remainder of the first multi-episode alternative
after `[-~]`. -/
def a1rest (r : List Char) : Bool :=
  let r2 := match r with
    | s :: rr => if isSch s then rr else s :: rr
    | [] => []
  match r2.dropWhile isDig with
  | e :: r4 => isEch e && (digits1 r4).isSome
  | [] => false

/-- The alternative tails of the multi-episode pattern after the shared
prefix `\s+S\d+E\d+`, in source order: `[-~]S?\d*E\d+`, `E\d+`,
`-\d+`, `~\d+` (each followed by `.*`, which always matches). -/
def altA : List Char → Bool
  | [] => false
  | c :: r =>
    if c = '-' ∨ c = '~' then a1rest r || (digits1 r).isSome
    else if isEch c then (digits1 r).isSome
    else false

/-- The multi-episode alternation with its `\s+S\d+E\d+` prefix, at the
current position. -/
def mMultiTail (l : List Char) : Bool :=
  match ws1 l with
  | some r =>
    match r with
    | c :: r2 =>
      if isSch c then
        match digits1 r2 with
        | some (_, e :: r3) =>
          if isEch e then
            match digits1 r3 with
            | some (_, r4) => altA r4
            | none => false
          else false
        | _ => false
      else false
    | [] => false
  | none => false

/-- `re.match` of the multi-episode pattern
`(.*?)(?:\s+S\d+E\d+[-~]S?\d*E\d+.*|\s+S\d+E\d+E\d+.*|\s+S\d+E\d+-\d+.*|\s+S\d+E\d+~\d+.*)`
(IGNORECASE): the lazy prefix `(.*?)` cannot cross a newline; on
success returns `group(1)`, the characters before the match. -/
def multiGo : List Char → Option (List Char)
  | [] => none
  | c :: t =>
    if mMultiTail (c :: t) then some []
    else if c = '\n' then none
    else (multiGo t).map (fun pre => c :: pre)

/-- `.*$` (no MULTILINE): greedily consume non-newline characters, then
require the end of the string or a single final newline. -/
def tailOK (l : List Char) : Bool :=
  match l.dropWhile (fun c => !(c = '\n')) with
  | [] => true
  | ['\n'] => true
  | _ => false

/-- An optional group `(?: … )?` followed by a continuation: try the
group first; if it matches but the continuation fails, fall back to
the empty alternative (the group's sub-parse is deterministic). -/
def optThen (px : List Char → Option (List Char)) (k : List Char → Bool) (l : List Char) :
    Bool :=
  match px l with
  | some r => k r || k l
  | none => k l

/-- `\s*of\s*\d+`. -/
def ofClause (l : List Char) : Option (List Char) := do
  let r ← strCI ['o', 'f'] (skipWs l)
  let (_, r2) ← digits1 (skipWs r)
  pure r2

/-- `\s*-\s*\d+`. -/
def dashNumClause (l : List Char) : Option (List Char) :=
  match skipWs l with
  | c :: r => if c = '-' then (digits1 (skipWs r)).map Prod.snd else none
  | [] => none

/-- `-\d+` (no surrounding whitespace). -/
def dashNumTight : List Char → Option (List Char)
  | '-' :: r => (digits1 r).map Prod.snd
  | _ => none

/-- `\s*\[.*?\]` as an optional-group parser. -/
def bracketClause (l : List Char) : Option (List Char) := mBracket l

/-- `Ep(?:\.|\s)?\s*\d+` returning the remainder (for the season
patterns, which continue with `.*$`). -/
def epDotDigitsR (l : List Char) : Option (List Char) := do
  let r ← strCI ['e', 'p'] l
  let r2 :=
    match r with
    | '.' :: r3 => skipWs r3
    | _ => skipWs r
  let (_, r4) ← digits1 r2
  pure r4

/-- Season pattern 1, `\s*-\s*S\d+E\d+(?:\s*of\s*\d+)?(?:\s*-\s*\d+)?(?:\s*\[.*?\])?.*$`. -/
def p1At (l : List Char) : Bool :=
  match skipWs l with
  | [] => false
  | d :: r =>
    if !(d = '-') then false
    else
    match skipWs r with
    | c :: r2 =>
      if isSch c then
        match digits1 r2 with
        | some (_, e :: r3) =>
          if isEch e then
            match digits1 r3 with
            | some (_, r4) => optThen ofClause (optThen dashNumClause (optThen bracketClause tailOK)) r4
            | none => false
          else false
        | _ => false
      else false
    | [] => false

/-- Season pattern 2, `\s*-\s*Stagione\s*\d+(?:\s*\[.*?\])?.*$`. -/
def p2At (l : List Char) : Bool :=
  match skipWs l with
  | [] => false
  | d :: r =>
    if !(d = '-') then false
    else
    match strCI ['s', 't', 'a', 'g', 'i', 'o', 'n', 'e'] (skipWs r) with
    | some r2 =>
      match digits1 (skipWs r2) with
      | some (_, r3) => optThen bracketClause tailOK r3
      | none => false
    | none => false

/-- Season pattern 3, `\s*-\s*Season\s*\d+(?:\s*\[.*?\])?.*$`. -/
def p3At (l : List Char) : Bool :=
  match skipWs l with
  | [] => false
  | d :: r =>
    if !(d = '-') then false
    else
    match strCI ['s', 'e', 'a', 's', 'o', 'n'] (skipWs r) with
    | some r2 =>
      match digits1 (skipWs r2) with
      | some (_, r3) => optThen bracketClause tailOK r3
      | none => false
    | none => false

/-- `\s+Episode\s+\d+` (the optional tail of season pattern 4). -/
def episodeClause (l : List Char) : Option (List Char) := do
  let r ← ws1 l
  let r2 ← strCI ['e', 'p', 'i', 's', 'o', 'd', 'e'] r
  let r3 ← ws1 r2
  let (_, r4) ← digits1 r3
  pure r4

/-- Season pattern 4, `\s+(\d+)(?:st|nd|rd|th)\s+Season(?:\s+Episode\s+\d+)?.*$`. -/
def p4At (l : List Char) : Bool :=
  match ws1 l with
  | some r =>
    match digits1 r with
    | some (_, r1) =>
      match ordSuffix r1 with
      | some r2 =>
        match ws1 r2 with
        | some r3 =>
          match strCI ['s', 'e', 'a', 's', 'o', 'n'] r3 with
          | some r4 => optThen episodeClause tailOK r4
          | none => false
        | none => false
      | none => false
    | none => false
  | none => false

/-- Season pattern 5, `\s+Season\s+\d+\s+Ep(?:\.|\s)?\s*\d+.*$`. -/
def p5At (l : List Char) : Bool :=
  match ws1 l with
  | some r =>
    match strCI ['s', 'e', 'a', 's', 'o', 'n'] r with
    | some r2 =>
      match ws1 r2 with
      | some r3 =>
        match digits1 r3 with
        | some (_, r4) =>
          match ws1 r4 with
          | some r5 =>
            match epDotDigitsR r5 with
            | some r6 => tailOK r6
            | none => false
          | none => false
        | none => false
      | none => false
    | none => false
  | none => false

/-- Season pattern 6, `\s+Stagione\s+\d+\s+Ep(?:\.|\s)?\s*\d+.*$`. -/
def p6At (l : List Char) : Bool :=
  match ws1 l with
  | some r =>
    match strCI ['s', 't', 'a', 'g', 'i', 'o', 'n', 'e'] r with
    | some r2 =>
      match ws1 r2 with
      | some r3 =>
        match digits1 r3 with
        | some (_, r4) =>
          match ws1 r4 with
          | some r5 =>
            match epDotDigitsR r5 with
            | some r6 => tailOK r6
            | none => false
          | none => false
        | none => false
      | none => false
    | none => false
  | none => false

/-- `\d+x\d+` at the current position, returning the remainder. -/
def nxmR (l : List Char) : Option (List Char) :=
  match digits1 l with
  | some (_, x :: r2) =>
    if x = 'x' || x = 'X' then (digits1 r2).map Prod.snd else none
  | _ => none

/-- Season pattern 7, `\s+\d+x\d+(?:-\d+)?(?:\s*\[.*?\])?.*$`. -/
def p7At (l : List Char) : Bool :=
  match ws1 l with
  | some r =>
    match nxmR r with
    | some r2 => optThen dashNumTight (optThen bracketClause tailOK) r2
    | none => false
  | none => false

/-- Season pattern 8, `\s+S\d+E\d+(?:\s*of\s*\d+)?(?:\s*\[.*?\])?.*$`. -/
def p8At (l : List Char) : Bool :=
  match ws1 l with
  | some (c :: r2) =>
    if isSch c then
      match digits1 r2 with
      | some (_, e :: r3) =>
        if isEch e then
          match digits1 r3 with
          | some (_, r4) => optThen ofClause (optThen bracketClause tailOK) r4
          | none => false
        else false
      | _ => false
    else false
  | _ => false

/-- Season pattern 9, `\s*\d+x\d+(?:\s*of\s*\d+)?(?:.*)?$`. -/
def p9At (l : List Char) : Bool :=
  match nxmR (skipWs l) with
  | some r2 => optThen ofClause tailOK r2
  | none => false

/-- Season pattern 10, `\s+Season\s*\d+(?:\s*\[.*?\])?.*$`. -/
def p10At (l : List Char) : Bool :=
  match ws1 l with
  | some r =>
    match strCI ['s', 'e', 'a', 's', 'o', 'n'] r with
    | some r2 =>
      match digits1 (skipWs r2) with
      | some (_, r3) => optThen bracketClause tailOK r3
      | none => false
    | none => false
  | none => false

/-- Season pattern 11, `\s+Stagione\s*\d+(?:\s*\[.*?\])?.*$`. -/
def p11At (l : List Char) : Bool :=
  match ws1 l with
  | some r =>
    match strCI ['s', 't', 'a', 'g', 'i', 'o', 'n', 'e'] r with
    | some r2 =>
      match digits1 (skipWs r2) with
      | some (_, r3) => optThen bracketClause tailOK r3
      | none => false
    | none => false
  | none => false

/-- `re.search` returning the start index of the leftmost match. -/
def searchIdx (m : List Char → Bool) : List Char → Option Nat
  | [] => if m [] then some 0 else none
  | c :: t => if m (c :: t) then some 0 else (searchIdx m t).map (· + 1)

/-- The `season_patterns` loop of `_extract_base_series_name`: the
patterns are tried in order and the first one with a match anywhere
supplies the cut position `match.start()`. -/
def seasonPatternsSearch (l : List Char) : Option Nat :=
  match searchIdx p1At l with
  | some i => some i
  | none =>
  match searchIdx p2At l with
  | some i => some i
  | none =>
  match searchIdx p3At l with
  | some i => some i
  | none =>
  match searchIdx p4At l with
  | some i => some i
  | none =>
  match searchIdx p5At l with
  | some i => some i
  | none =>
  match searchIdx p6At l with
  | some i => some i
  | none =>
  match searchIdx p7At l with
  | some i => some i
  | none =>
  match searchIdx p8At l with
  | some i => some i
  | none =>
  match searchIdx p9At l with
  | some i => some i
  | none =>
  match searchIdx p10At l with
  | some i => some i
  | none => searchIdx p11At l

/-- Remove the trailing run of characters satisfying `p`
(`re.sub(r'…+$', '', ·)`). -/
def dropTrailing (p : Char → Bool) (l : List Char) : List Char :=
  (l.reverse.dropWhile p).reverse

/-- `_extract_base_series_name`: strip, remove bracketed annotations
and a trailing parenthetical, return the stripped multi-episode prefix
when the multi-episode pattern matches, otherwise cut at the first
season-pattern match, strip, remove trailing whitespace and
dashes, and validate the length. -/
def extract_base_series_name (title : String) : Option String :=
  let t2 := subTrailParens (subBrackets (pyStrip title.data))
  match multiGo t2 with
  | some pre => some ⟨pyStrip pre⟩
  | none =>
    let sn :=
      match seasonPatternsSearch t2 with
      | some idx => pyStrip (t2.take idx)
      | none => t2
    let sn2 := dropTrailing (fun c => isWs c || c = '-') (dropTrailing isWs sn)
    if 2 ≤ sn2.length then some ⟨sn2⟩ else none

/-! ### Query strategy generation -/

/-- `' '.join` of the non-absent metadata parts `[resolution, codec]`. -/
def metadataParts (resolution codec : Option String) : List String :=
  (match resolution with | some r => [r] | none => []) ++
  (match codec with | some c => [c] | none => [])

/-- `' '.join`. -/
def joinSpace : List String → String
  | [] => ""
  | [x] => x
  | x :: xs => x ++ " " ++ joinSpace xs

/-- `_extract_enhanced_search_queries`: metadata-based query strategies
from the release title; an unusable base title yields no queries.  (The
body has no fallible operation, so its `try`/`except` arm is dead.) -/
def extract_enhanced_search_queries (release_title : String) : List (String × String) :=
  match extract_base_series_name release_title with
  | none => []
  | some base =>
    let resolution := extract_resolution release_title
    let codec := extract_codec release_title
    let year := extract_year release_title
    let season_num := extract_season_number release_title
    let parts := metadataParts resolution codec
    (match season_num with
     | some sn =>
       if parts ≠ [] then
         [("season-metadata", base ++ " Stagione " ++ sn ++ " " ++ joinSpace parts)]
       else []
     | none => []) ++
    (if parts ≠ [] then [("metadata-only", base ++ " " ++ joinSpace parts)] else []) ++
    (match resolution with
     | some r => [("resolution-only", base ++ " " ++ r)]
     | none => []) ++
    (match codec with
     | some c => [("codec-only", base ++ " " ++ c)]
     | none => []) ++
    (match year with
     | some y => [("year-metadata", base ++ " " ++ y)]
     | none => [])

/-- Python truthiness of an optional string argument. -/
def truthyS : Option String → Bool
  | some s => !(s == "")
  | none => false

/-- Python truthiness of an optional numeric argument. -/
def truthyN : Option Nat → Bool
  | some n => !(n == 0)
  | none => false

/-- `_build_enhanced_search_queries`: the ordered query strategies —
exact title; cleaned title when different; series/season/episode
combinations when the metadata arguments are truthy; then the
metadata-derived strategies. -/
def build_enhanced_search_queries (release_title : String) (series_title : Option String)
    (season episode : Option Nat) : List (String × String) :=
  let clean := clean_release_title_for_search release_title
  [("exact_title", release_title)] ++
  (if clean ≠ release_title then [("clean_title", clean)] else []) ++
  (if truthyS series_title ∧ truthyN season ∧ truthyN episode then
    [("series_season_ep",
        (series_title.getD "") ++ " " ++
          ⟨fmtSE (season.getD 0) (episode.getD 0)⟩),
     ("series_season_ep_it",
        (series_title.getD "") ++ " Stagione " ++ ⟨natChars (season.getD 0)⟩ ++
          " Episodio " ++ ⟨natChars (episode.getD 0)⟩)]
  else if truthyS series_title ∧ truthyN season then
    [("series_season", (series_title.getD "") ++ " Stagione " ++ ⟨natChars (season.getD 0)⟩),
     ("series_season_en", (series_title.getD "") ++ " Season " ++ ⟨natChars (season.getD 0)⟩)]
  else if truthyS series_title then [("series_only", series_title.getD "")]
  else []) ++
  (extract_enhanced_search_queries release_title).map (fun q => ("metadata_" ++ q.1, q.2))

/-- A release title of the claimed shape `"X - S{ss}E{ee} ..."`
containing both a resolution token and a codec token. -/
def c2Title : String := "Show - S01E02 1080p x264"

/-- A captured digit group: non-empty, all digits. -/
def goodG (g : List Char) : Prop := g ≠ [] ∧ g.all isDig = true

/-- A good `finditer` match triple: both mandatory groups and any
present optional group are non-empty digit strings. -/
def goodTriple (t : List Char × List Char × Option (List Char)) : Prop :=
  goodG t.1 ∧ goodG t.2.1 ∧ ∀ g3, t.2.2 = some g3 → goodG g3


/-! ### C7 definitions: title shape for the dash-SE family -/

/-- Alpha-or-space: the character class of the series-name part. -/
def aos (c : Char) : Bool := c.isAlpha || c = ' '

/-- The shared tail of the C7 title: `" - S" ++ pad2 ss ++ "E" ++ pad2 ee ++ rest`. -/
def c7B (ss ee : Nat) (rest : List Char) : List Char :=
  ' ' :: '-' :: ' ' :: 'S' :: (pad2 ss ++ 'E' :: (pad2 ee ++ rest))

end Mircrew

namespace Mircrew

/-! ## Theorems -/

/-- Deleting a key removes it: a lookup after `del` misses. -/
theorem plookup_pdelete (k : String) (c : Cache) : plookup k (pdelete k c) = none := by
  induction c with
  | nil => rfl
  | cons e t ih =>
    by_cases h : e.1 = k
    · simpa [pdelete, List.filter_cons, h] using ih
    · simpa [pdelete, List.filter_cons, h, plookup] using ih

theorem isDig_not_S {c : Char} (h : isDig c = true) : isSch c = false := by
  simp only [isDig, Bool.and_eq_true, decide_eq_true_eq] at h
  simp only [isSch, Bool.or_eq_false_iff, decide_eq_false_iff_not]
  obtain ⟨h1, h2⟩ := h
  refine ⟨fun e => ?_, fun e => ?_⟩
  · subst e; exact absurd h2 (by decide)
  · subst e; exact absurd h2 (by decide)

theorem isEch_not_S {c : Char} (h : isEch c = true) : isSch c = false := by
  simp only [isEch, Bool.or_eq_true, decide_eq_true_eq] at h
  simp only [isSch, Bool.or_eq_false_iff, decide_eq_false_iff_not]
  rcases h with rfl | rfl
  · exact ⟨by decide, by decide⟩
  · exact ⟨by decide, by decide⟩

theorem length_of_isSECode {m : List Char} (h : isSECode m = true) : m.length = 6 := by
  rcases m with _ | ⟨m1, _ | ⟨m2, _ | ⟨m3, _ | ⟨m4, _ | ⟨m5, _ | ⟨m6, mrest⟩⟩⟩⟩⟩⟩ <;>
    first
      | (rcases mrest with _ | ⟨m7, mrest⟩
         · rfl
         · simp [isSECode] at h)
      | simp [isSECode] at h

theorem mem_findallSE (l m : List Char) :
    m ∈ findallSE l ↔ (isSECode m = true ∧ ∃ p q, l = p ++ m ++ q) := by
  induction l using findallSE.induct with
  | case1 a b c d e f r hc ih =>
    rw [show findallSE (a :: b :: c :: d :: e :: f :: r)
        = [a, b, c, d, e, f] :: findallSE r by simp [findallSE, hc]]
    constructor
    · intro hm
      rcases List.mem_cons.mp hm with rfl | hm
      · exact ⟨hc, [], r, rfl⟩
      · obtain ⟨hse, p, q, rfl⟩ := ih.mp hm
        exact ⟨hse, [a, b, c, d, e, f] ++ p, q, by simp⟩
    · rintro ⟨hse, p, q, heq⟩
      have hsix := length_of_isSECode hse
      rcases m with _ | ⟨m1, _ | ⟨m2, _ | ⟨m3, _ | ⟨m4, _ | ⟨m5, _ | ⟨m6, mrest⟩⟩⟩⟩⟩⟩ <;>
        simp at hsix
      rcases mrest with _ | ⟨m7, mrest⟩
      swap
      · simp at hsix
      have hS : isSch m1 = true := by
        simp only [isSECode, Bool.and_eq_true] at hse; exact hse.1.1.1.1.1
      simp only [isSECode, Bool.and_eq_true] at hc
      obtain ⟨⟨⟨⟨⟨hcS, hcb⟩, hcc⟩, hcd⟩, hce⟩, hcf⟩ := hc
      rcases p with _ | ⟨p1, _ | ⟨p2, _ | ⟨p3, _ | ⟨p4, _ | ⟨p5, _ | ⟨p6, p2'⟩⟩⟩⟩⟩⟩
      · simp only [List.nil_append, List.cons_append, List.cons.injEq] at heq
        obtain ⟨rfl, rfl, rfl, rfl, rfl, rfl, rfl⟩ := heq
        exact List.mem_cons_self _ _
      · simp only [List.cons_append, List.cons.injEq, List.nil_append] at heq
        obtain ⟨-, rfl, -⟩ := heq
        rw [isDig_not_S hcb] at hS; exact absurd hS (by decide)
      · simp only [List.cons_append, List.cons.injEq, List.nil_append] at heq
        obtain ⟨-, -, rfl, -⟩ := heq
        rw [isDig_not_S hcc] at hS; exact absurd hS (by decide)
      · simp only [List.cons_append, List.cons.injEq, List.nil_append] at heq
        obtain ⟨-, -, -, rfl, -⟩ := heq
        rw [isEch_not_S hcd] at hS; exact absurd hS (by decide)
      · simp only [List.cons_append, List.cons.injEq, List.nil_append] at heq
        obtain ⟨-, -, -, -, rfl, -⟩ := heq
        rw [isDig_not_S hce] at hS; exact absurd hS (by decide)
      · simp only [List.cons_append, List.cons.injEq, List.nil_append] at heq
        obtain ⟨-, -, -, -, -, rfl, -⟩ := heq
        rw [isDig_not_S hcf] at hS; exact absurd hS (by decide)
      · simp only [List.cons_append, List.cons.injEq] at heq
        obtain ⟨-, -, -, -, -, -, hr⟩ := heq
        exact List.mem_cons_of_mem _ (ih.mpr ⟨hse, p2', q, hr⟩)
  | case2 a b c d e f r hc ih =>
    rw [show findallSE (a :: b :: c :: d :: e :: f :: r)
        = findallSE (b :: c :: d :: e :: f :: r) by simp [findallSE, hc]]
    constructor
    · intro hm
      obtain ⟨hse, p, q, heq⟩ := ih.mp hm
      exact ⟨hse, a :: p, q, by simp [heq]⟩
    · rintro ⟨hse, p, q, heq⟩
      have hsix := length_of_isSECode hse
      rcases p with _ | ⟨p1, p'⟩
      · rcases m with _ | ⟨m1, _ | ⟨m2, _ | ⟨m3, _ | ⟨m4, _ | ⟨m5, _ | ⟨m6, mrest⟩⟩⟩⟩⟩⟩ <;>
          simp at hsix
        rcases mrest with _ | ⟨m7, mrest⟩
        swap
        · simp at hsix
        simp only [List.nil_append, List.cons_append, List.cons.injEq] at heq
        obtain ⟨rfl, rfl, rfl, rfl, rfl, rfl, -⟩ := heq
        exact absurd hse hc
      · simp only [List.cons_append, List.cons.injEq] at heq
        exact ih.mpr ⟨hse, p', q, heq.2⟩
  | case3 t hshape =>
    have hempty : findallSE t = [] := by
      rcases t with _ | ⟨a, _ | ⟨b, _ | ⟨c, _ | ⟨d, _ | ⟨e, _ | ⟨f, r⟩⟩⟩⟩⟩⟩
      · rfl
      · rfl
      · rfl
      · rfl
      · rfl
      · rfl
      · exact absurd rfl (hshape a b c d e f r)
    rw [hempty]
    simp only [List.not_mem_nil, false_iff, not_and]
    intro hse
    rintro ⟨p, q, heq⟩
    have hsix := length_of_isSECode hse
    have hlen : t.length = p.length + 6 + q.length := by
      simp [heq, hsix]; omega
    have hlt : t.length < 6 := by
      rcases t with _ | ⟨a, _ | ⟨b, _ | ⟨c, _ | ⟨d, _ | ⟨e, _ | ⟨f, r⟩⟩⟩⟩⟩⟩
      · simp
      · simp
      · simp
      · simp
      · simp
      · simp
      · exact absurd rfl (hshape a b c d e f r)
    omega


/-- C3.  Bulk extraction with range expansion: `parse_needed_episodes`
on `"S01E01-E03"` yields exactly the set containing S01E01, S01E02 and
S01E03 — the range `SxxEyy-Ezz` expands to every code from `yy` to `zz`
inclusive under the same season. -/
theorem c3_range_expansion :
    parse_needed_episodes "S01E01-E03" = ["S01E01", "S01E02", "S01E03"] := by rfl

/-- C6.  Tier precedence of the needed-episode resolver: with the
explicit season and episode-number fields absent and a file path
containing `S02E05-E07`, the resolver returns the concrete set
S02E05, S02E06, S02E07 and does not enter "process all" mode, whatever
the release title. -/
theorem c6_filepath_tier :
    ∀ releaseTitle : String,
      needed_episodes_resolver "" "" "Show.S02E05-E07.mkv" releaseTitle
        = (["S02E05", "S02E06", "S02E07"], false) :=
  fun _ => rfl

/-- C8.  `extract_episode_codes` returns exactly the substrings of the
magnet title matching `S\d{2}E\d{2}` (case-insensitively), each
verbatim with no normalization: a lowercase occurrence such as
`"s01e05"` is returned in lowercase and therefore never intersects the
upper-case zero-padded needed set, one-digit forms such as `"S1E4"`
contribute nothing, and ranges are not expanded. -/
theorem c8_codes_verbatim :
    (∀ (title : String) (code : List Char),
        (⟨code⟩ : String) ∈ extract_episode_codes title ↔
          (isSECode code = true ∧ ∃ p q, title.data = p ++ code ++ q)) ∧
    extract_episode_codes "Show.s01e05.mkv" = ["s01e05"] ∧
    listInter (extract_episode_codes "Show.s01e05.mkv")
      (parse_needed_episodes "Show.S01E05.mkv") = [] ∧
    extract_episode_codes "S1E4" = [] ∧
    extract_episode_codes "S01E01-E03" = ["S01E01"] := by
  refine ⟨fun title code => ?_, rfl, rfl, rfl, rfl⟩
  rw [show extract_episode_codes title
      = (findallSE title.data).map (fun l => (⟨l⟩ : String)) from rfl]
  constructor
  · intro h
    obtain ⟨x, hx, he⟩ := List.mem_map.mp h
    obtain rfl : x = code := by
      have := congrArg String.data he
      simpa using this
    exact (mem_findallSE _ _).mp hx
  · intro h
    exact List.mem_map_of_mem _ ((mem_findallSE _ _).mpr h)

/-- C5.  `ThreadCache.get` expiry: a cached entry whose valid timestamp
is more than 180 days older than the current time makes
`get_cached_thread_id` return absent and delete the entry, so an
immediately repeated get on the same key also returns absent. -/
theorem c5_get_expired_entry_deleted (c : Cache) (series : String) (season now : Nat)
    (tid : String) (t : Nat)
    (hser : series ≠ "") (hsea : season ≠ 0)
    (hent : plookup (cacheKey series season) c = some (.modern tid (.valid t)))
    (hold : t + CACHE_EXPIRY < now) :
    (get_cached_thread_id series season now c).1 = none ∧
    plookup (cacheKey series season) (get_cached_thread_id series season now c).2 = none ∧
    (get_cached_thread_id series season now (get_cached_thread_id series season now c).2).1
      = none := by
  have hguard : ¬ (series = "" ∨ season = 0) := by
    rintro (h | h) <;> [exact hser h; exact hsea h]
  have h2 : (get_cached_thread_id series season now c).2 = pdelete (cacheKey series season) c := by
    simp [get_cached_thread_id, hguard, hent, hold]
  refine ⟨by simp [get_cached_thread_id, hguard, hent, hold], ?_, ?_⟩
  · rw [h2]; exact plookup_pdelete _ _
  · rw [h2]
    simp [get_cached_thread_id, hguard, plookup_pdelete]

/-- Witness for C5 at a concrete cache, key and clock. -/
theorem c5_get_expired_entry_deleted_witness :
    ("A" ≠ "" ∧ (1 : Nat) ≠ 0 ∧
      plookup (cacheKey "A" 1) [("A S01", CacheVal.modern "7" (TStamp.valid 10))]
        = some (.modern "7" (.valid 10)) ∧ 10 + CACHE_EXPIRY < 200) ∧
    (get_cached_thread_id "A" 1 200 [("A S01", CacheVal.modern "7" (TStamp.valid 10))]).1
      = none ∧
    plookup (cacheKey "A" 1)
      (get_cached_thread_id "A" 1 200 [("A S01", CacheVal.modern "7" (TStamp.valid 10))]).2
      = none ∧
    (get_cached_thread_id "A" 1 200
      (get_cached_thread_id "A" 1 200
        [("A S01", CacheVal.modern "7" (TStamp.valid 10))]).2).1 = none :=
  ⟨⟨by decide, by decide, by decide, by decide⟩,
    c5_get_expired_entry_deleted _ "A" 1 200 "7" 10 (by decide) (by decide) (by decide)
      (by decide)⟩

set_option maxRecDepth 200000 in
/-- C1 counterexample: 101 distinct-key insertions with fresh
monotonically later timestamps do NOT leave exactly 80 live entries. -/
theorem c1_counterexample_not_80 : ¬ (c1Run.length = 80) := by decide

set_option maxRecDepth 200000 in
/-- C1 amended: starting from an empty cache, 101 `put` operations with
101 distinct keys and fresh monotonically later timestamps (none
expired) leave exactly 81 live entries — the newest 80 of the first 100
insertions plus the 101st — i.e. the entries carrying the 81 most
recent timestamps among the 101 inserted. -/
theorem c1_amended_101_puts_leave_81 :
    c1Run.length = 81 ∧
    c1Run.map (fun e => sortKey e.2) = ((List.range' 21 80).reverse ++ [101]) := by
  decide

/-- C4.  First-item rule of the magnet filter: with a non-empty needed
set, "process all" inactive and no intersection between the first
magnet's codes and the needed set, the decision is `REPLACE`; for the
same first magnet with "process all" active the decision is `KEEP`. -/
theorem c4_first_magnet_replace_or_keep (needed codes : List String)
    (hne : needed ≠ []) (hint : listInter codes needed = []) :
    magnetFilterDecision true true false false needed codes = .REPLACE ∧
    magnetFilterDecision true true false true needed codes = .KEEP := by
  constructor
  · simp [magnetFilterDecision, hint, List.isEmpty_iff, hne]
  · simp [magnetFilterDecision]

/-- Witness for C4 at a concrete needed set and code set. -/
theorem c4_first_magnet_replace_or_keep_witness :
    (["S01E05"] ≠ ([] : List String) ∧ listInter ["S01E01"] ["S01E05"] = []) ∧
    magnetFilterDecision true true false false ["S01E05"] ["S01E01"] = .REPLACE ∧
    magnetFilterDecision true true false true ["S01E05"] ["S01E01"] = .KEEP :=
  ⟨⟨by decide, by decide⟩,
    c4_first_magnet_replace_or_keep ["S01E05"] ["S01E01"] (by decide) (by decide)⟩

theorem digitCh_isDig {n : Nat} (h : n < 10) : isDig (digitCh n) = true := by
  interval_cases n <;> decide

theorem digitCh_toNat {n : Nat} (h : n < 10) : (digitCh n).toNat = 48 + n := by
  interval_cases n <;> decide

theorem natChars_lt10 {n : Nat} (h : n < 10) : natChars n = [digitCh n] := by
  simp [natChars, natCharsAux, h]

theorem natChars_two {n : Nat} (h1 : 10 ≤ n) (h2 : n < 100) :
    natChars n = [digitCh (n / 10), digitCh (n % 10)] := by
  obtain ⟨k, rfl⟩ : ∃ k, n = k + 1 := ⟨n - 1, by omega⟩
  show natCharsAux (k + 2) (k + 1) = _
  rw [show natCharsAux (k + 2) (k + 1)
      = if k + 1 < 10 then [digitCh (k + 1)]
        else natCharsAux (k + 1) ((k + 1) / 10) ++ [digitCh ((k + 1) % 10)] from rfl]
  rw [if_neg (by omega)]
  obtain ⟨j, hj⟩ : ∃ j, k = j + 1 := ⟨k - 1, by omega⟩
  subst hj
  rw [show natCharsAux (j + 2) ((j + 2) / 10)
      = if (j + 2) / 10 < 10 then [digitCh ((j + 2) / 10)]
        else natCharsAux (j + 1) ((j + 2) / 10 / 10) ++ [digitCh ((j + 2) / 10 % 10)] from rfl]
  rw [if_pos (by omega)]
  simp

theorem pad2_all_dig {n : Nat} (h : n < 100) : (pad2 n).all isDig = true := by
  by_cases h10 : n < 10
  · simp [pad2, h10, natChars_lt10 h10, digitCh_isDig h10]
    decide
  · simp [pad2, h10, natChars_two (by omega) h, digitCh_isDig (show n / 10 < 10 by omega),
      digitCh_isDig (show n % 10 < 10 by omega)]

theorem pad2_ne_nil {n : Nat} (h : n < 100) : pad2 n ≠ [] := by
  by_cases h10 : n < 10
  · simp [pad2, h10]
  · simp [pad2, h10, natChars_two (by omega) h]

theorem pyInt_pad2 {n : Nat} (h : n < 100) : pyInt (pad2 n) = .ok n := by
  rw [show pyInt (pad2 n)
      = if pad2 n ≠ [] ∧ (pad2 n).all isDig
        then .ok ((pad2 n).foldl (fun acc c => acc * 10 + (c.toNat - 48)) 0)
        else .error "ValueError" from rfl]
  rw [if_pos ⟨pad2_ne_nil h, pad2_all_dig h⟩]
  by_cases h10 : n < 10
  · simp [pad2, h10, natChars_lt10 h10, List.foldl, digitCh_toNat h10]
  · simp [pad2, h10, natChars_two (by omega) h, List.foldl,
      digitCh_toNat (show n / 10 < 10 by omega), digitCh_toNat (show n % 10 < 10 by omega)]
    omega

theorem takeWhile_append_of_all {p : Char → Bool} {l1 l2 : List Char} (h : l1.all p = true) :
    (l1 ++ l2).takeWhile p = l1 ++ l2.takeWhile p := by
  induction l1 with
  | nil => simp
  | cons a t ih =>
    simp only [List.all_cons, Bool.and_eq_true] at h
    simp [List.takeWhile_cons, h.1, ih h.2]

theorem dropWhile_append_of_all {p : Char → Bool} {l1 l2 : List Char} (h : l1.all p = true) :
    (l1 ++ l2).dropWhile p = l2.dropWhile p := by
  induction l1 with
  | nil => simp
  | cons a t ih =>
    simp only [List.all_cons, Bool.and_eq_true] at h
    simp [List.dropWhile_cons, h.1, ih h.2]

theorem digits1_pad2_cons {s : Nat} (hs : s < 100) (c : Char) (hc : isDig c = false)
    (r : List Char) : digits1 (pad2 s ++ c :: r) = some (pad2 s, c :: r) := by
  rw [show digits1 (pad2 s ++ c :: r)
      = (if ((pad2 s ++ c :: r).takeWhile isDig).isEmpty then none
         else some ((pad2 s ++ c :: r).takeWhile isDig, (pad2 s ++ c :: r).dropWhile isDig))
      from rfl]
  rw [takeWhile_append_of_all (pad2_all_dig hs), dropWhile_append_of_all (pad2_all_dig hs)]
  simp [List.takeWhile_cons, List.dropWhile_cons, hc, List.isEmpty_iff, pad2_ne_nil hs]

theorem digits1_pad2_nil {s : Nat} (hs : s < 100) : digits1 (pad2 s) = some (pad2 s, []) := by
  rw [show digits1 (pad2 s)
      = (if ((pad2 s).takeWhile isDig).isEmpty then none
         else some ((pad2 s).takeWhile isDig, (pad2 s).dropWhile isDig)) from rfl]
  have ht : (pad2 s).takeWhile isDig = pad2 s := by
    have := @takeWhile_append_of_all isDig (pad2 s) [] (pad2_all_dig hs)
    simpa using this
  have hd : (pad2 s).dropWhile isDig = [] := by
    have := @dropWhile_append_of_all isDig (pad2 s) [] (pad2_all_dig hs)
    simpa using this
  simp [ht, hd, List.isEmpty_iff, pad2_ne_nil hs]

theorem m_SxEy_fmtSE {s e : Nat} (hs : s < 100) (he : e < 100) :
    m_SxEy (fmtSE s e) = some (pad2 s, pad2 e) := by
  show m_SxEy ('S' :: (pad2 s ++ 'E' :: pad2 e)) = some (pad2 s, pad2 e)
  rw [show m_SxEy ('S' :: (pad2 s ++ 'E' :: pad2 e))
      = (if isSch 'S' then
          match digits1 (pad2 s ++ 'E' :: pad2 e) with
          | some (g1, e2 :: r2) =>
            if isEch e2 then (digits1 r2).map (fun p => (g1, p.1)) else none
          | _ => none
        else none) from rfl]
  rw [if_pos (by decide)]
  rw [digits1_pad2_cons hs 'E' (by decide) (pad2 e)]
  simp only [if_pos (show isEch 'E' = true by decide)]
  rw [digits1_pad2_nil he]
  rfl

theorem searchG_cons_some {α : Type} {m : List Char → Option α} {c : Char} {t : List Char}
    {a : α} (h : m (c :: t) = some a) : searchG m (c :: t) = some a := by
  simp [searchG, h]

/-- C9.  Idempotence of the extractor on its own normalized output: a
valid full episode code `f"S{ss:02d}E{ee:02d}"` fed back to the
single-text pattern cascade as plain text is returned unchanged. -/
theorem c9_extract_idempotent (s e : Nat) (hs : s < 100) (he : e < 100) :
    extract_episode_info_text ⟨fmtSE s e⟩ = ⟨fmtSE s e⟩ := by
  have hsearch : searchG m_SxEy (fmtSE s e) = some (pad2 s, pad2 e) := by
    have hcons : fmtSE s e = 'S' :: (pad2 s ++ 'E' :: pad2 e) := rfl
    rw [hcons]
    exact searchG_cons_some (by rw [← hcons]; exact m_SxEy_fmtSE hs he)
  show (match episode_info_core (fmtSE s e) with
    | .ok v => v
    | .error _ => "Unknown") = (⟨fmtSE s e⟩ : String)
  rw [show episode_info_core (fmtSE s e)
      = (match searchG m_SxEy (fmtSE s e) with
        | some (g1, g2) => branchSE g1 g2
        | none =>
          match searchG m_NxM (fmtSE s e) with
          | some (g1, g2) => branchSE g1 g2
          | none =>
          match searchG m_ordSeasonEp (fmtSE s e) with
          | some (g1, g2) => branchSE g1 g2
          | none =>
          match searchG m_seasonWordEp (fmtSE s e) with
          | some (g1, g2) => branchSE g1 g2
          | none =>
          match searchG m_stagioneWordEp (fmtSE s e) with
          | some (g1, g2) => branchSE g1 g2
          | none =>
          match searchG m_stagioneOnly (fmtSE s e) with
          | some g => branchSeasonPack g
          | none =>
          match searchG m_seasonOnly (fmtSE s e) with
          | some g => branchSeasonPack g
          | none =>
          match searchG m_ordSeason (fmtSE s e) with
          | some g => branchSeasonPack g
          | none =>
          match searchAnchoredOrNW m_epCore (fmtSE s e) with
          | some g => branchBareEp (fmtSE s e) g
          | none =>
          match searchAnchoredOrNW m_episodioCore (fmtSE s e) with
          | some g => branchBareEp (fmtSE s e) g
          | none =>
          match searchG m_episodeWord (fmtSE s e) with
          | some g => branchBareEp (fmtSE s e) g
          | none =>
          match searchG m_epWs (fmtSE s e) with
          | some g => branchBareEp (fmtSE s e) g
          | none => .ok "Unknown") from rfl]
  rw [hsearch]
  show (match branchSE (pad2 s) (pad2 e) with
    | .ok v => v
    | .error _ => "Unknown") = (⟨fmtSE s e⟩ : String)
  rw [show branchSE (pad2 s) (pad2 e)
      = (do
          let season ← pyInt (pad2 s)
          let episode ← pyInt (pad2 e)
          pure ⟨fmtSE season episode⟩ : Except String String) from rfl]
  rw [pyInt_pad2 hs, pyInt_pad2 he]
  rfl

theorem digits1_good {l : List Char} {g r : List Char} (h : digits1 l = some (g, r)) :
    goodG g := by
  rw [show digits1 l
      = (if (l.takeWhile isDig).isEmpty then none
         else some (l.takeWhile isDig, l.dropWhile isDig)) from rfl] at h
  split at h
  · simp at h
  · simp only [Option.some.injEq, Prod.mk.injEq] at h
    obtain ⟨rfl, -⟩ := h
    refine ⟨by simpa [List.isEmpty_iff] using ‹¬(l.takeWhile isDig).isEmpty = true›, ?_⟩
    simp only [List.all_eq_true]
    exact fun c hc => List.mem_takeWhile_imp hc

theorem pyInt_good {g : List Char} (h : goodG g) : ∃ n, pyInt g = .ok n := by
  have he : pyInt g = .ok (g.foldl (fun acc c => acc * 10 + (c.toNat - 48)) 0) := by
    simp [pyInt, h.1, h.2]
  exact ⟨_, he⟩

theorem m_SxEy_good {l : List Char} {g1 g2 : List Char}
    (h : m_SxEy l = some (g1, g2)) : goodG g1 ∧ goodG g2 := by
  cases l with
  | nil => simp [m_SxEy] at h
  | cons c r =>
    rw [show m_SxEy (c :: r)
        = (if isSch c then
            match digits1 r with
            | some (ga, e :: r2) =>
              if isEch e then (digits1 r2).map (fun p => (ga, p.1)) else none
            | _ => none
          else none) from rfl] at h
    by_cases hS : isSch c = true
    · rw [if_pos hS] at h
      split at h
      · rename_i ga e r2 heq
        split at h
        · rcases hmap : digits1 r2 with _ | ⟨gb, r3⟩
          · rw [hmap] at h; simp at h
          · rw [hmap] at h
            simp only [Option.map_some', Option.some.injEq, Prod.mk.injEq] at h
            obtain ⟨rfl, rfl⟩ := h
            exact ⟨digits1_good heq, digits1_good hmap⟩
        · simp at h
      · simp at h
    · rw [if_neg hS] at h; simp at h

theorem digits1_fst_good {l : List Char} {g : List Char}
    (h : (digits1 l).map Prod.fst = some g) : goodG g := by
  rcases hd : digits1 l with _ | ⟨gg, rr⟩
  · rw [hd] at h; simp at h
  · rw [hd] at h
    simp only [Option.map_some', Option.some.injEq] at h
    subst h
    exact digits1_good hd

theorem m_NxM_good {l : List Char} {g1 g2 : List Char}
    (h : m_NxM l = some (g1, g2)) : goodG g1 ∧ goodG g2 := by
  rw [show m_NxM l
      = (match digits1 l with
        | some (ga, x :: r2) =>
          if x = 'x' || x = 'X' then (digits1 r2).map (fun p => (ga, p.1)) else none
        | _ => none) from rfl] at h
  split at h
  · rename_i ga x r2 heq
    split at h
    · rcases hmap : digits1 r2 with _ | ⟨gb, r3⟩
      · rw [hmap] at h; simp at h
      · rw [hmap] at h
        simp only [Option.map_some', Option.some.injEq, Prod.mk.injEq] at h
        obtain ⟨rfl, rfl⟩ := h
        exact ⟨digits1_good heq, digits1_good hmap⟩
    · simp at h
  · simp at h

theorem m_ordSeasonEp_good {l : List Char} {g1 g2 : List Char}
    (h : m_ordSeasonEp l = some (g1, g2)) : goodG g1 ∧ goodG g2 := by
  simp only [m_ordSeasonEp, Option.pure_def, Option.bind_eq_bind, Option.bind_eq_some] at h
  obtain ⟨⟨ga, r1⟩, hd1, ⟨r2, -, ⟨r3, -, ⟨r4, -, ⟨r5, -, ⟨r6, -, ⟨r7, -,
    ⟨⟨gb, r8⟩, hd2, h⟩⟩⟩⟩⟩⟩⟩⟩ := h
  simp only [Option.some.injEq, Prod.mk.injEq] at h
  obtain ⟨rfl, rfl⟩ := h
  exact ⟨digits1_good hd1, digits1_good hd2⟩

theorem epDotDigits_good {l : List Char} {g : List Char}
    (h : epDotDigits l = some g) : goodG g := by
  simp only [epDotDigits, Option.pure_def, Option.bind_eq_bind, Option.bind_eq_some] at h
  obtain ⟨r, -, ⟨⟨gg, rr⟩, hd, h⟩⟩ := h
  simp only [Option.some.injEq] at h
  subst h
  exact digits1_good hd

theorem m_seasonWordEp_good {l : List Char} {g1 g2 : List Char}
    (h : m_seasonWordEp l = some (g1, g2)) : goodG g1 ∧ goodG g2 := by
  simp only [m_seasonWordEp, Option.pure_def, Option.bind_eq_bind, Option.bind_eq_some] at h
  obtain ⟨r, -, ⟨r2, -, ⟨⟨ga, r3⟩, hd1, ⟨r4, -, ⟨gb, hep, h⟩⟩⟩⟩⟩ := h
  simp only [Option.some.injEq, Prod.mk.injEq] at h
  obtain ⟨rfl, rfl⟩ := h
  exact ⟨digits1_good hd1, epDotDigits_good hep⟩

theorem m_stagioneWordEp_good {l : List Char} {g1 g2 : List Char}
    (h : m_stagioneWordEp l = some (g1, g2)) : goodG g1 ∧ goodG g2 := by
  simp only [m_stagioneWordEp, Option.pure_def, Option.bind_eq_bind, Option.bind_eq_some] at h
  obtain ⟨r, -, ⟨r2, -, ⟨⟨ga, r3⟩, hd1, ⟨r4, -, ⟨gb, hep, h⟩⟩⟩⟩⟩ := h
  simp only [Option.some.injEq, Prod.mk.injEq] at h
  obtain ⟨rfl, rfl⟩ := h
  exact ⟨digits1_good hd1, epDotDigits_good hep⟩

theorem m_stagioneOnly_good {l : List Char} {g : List Char}
    (h : m_stagioneOnly l = some g) : goodG g := by
  simp only [m_stagioneOnly, Option.pure_def, Option.bind_eq_bind, Option.bind_eq_some] at h
  obtain ⟨r, -, ⟨⟨gg, rr⟩, hd, h⟩⟩ := h
  simp only [Option.some.injEq] at h
  subst h
  exact digits1_good hd

theorem m_seasonOnly_good {l : List Char} {g : List Char}
    (h : m_seasonOnly l = some g) : goodG g := by
  simp only [m_seasonOnly, Option.pure_def, Option.bind_eq_bind, Option.bind_eq_some] at h
  obtain ⟨r, -, ⟨⟨gg, rr⟩, hd, h⟩⟩ := h
  simp only [Option.some.injEq] at h
  subst h
  exact digits1_good hd

theorem m_ordSeason_good {l : List Char} {g : List Char}
    (h : m_ordSeason l = some g) : goodG g := by
  simp only [m_ordSeason, Option.pure_def, Option.bind_eq_bind, Option.bind_eq_some] at h
  obtain ⟨⟨ga, r1⟩, hd, ⟨r2, -, ⟨r3, -, ⟨r4, -, h⟩⟩⟩⟩ := h
  simp only [Option.some.injEq] at h
  subst h
  exact digits1_good hd

theorem m_epCore_good {l : List Char} {g : List Char}
    (h : m_epCore l = some g) : goodG g := by
  simp only [m_epCore, Option.pure_def, Option.bind_eq_bind, Option.bind_eq_some] at h
  obtain ⟨r, -, ⟨⟨gg, rr⟩, hd, h⟩⟩ := h
  simp only [Option.some.injEq] at h
  subst h
  exact digits1_good hd

theorem m_episodioCore_good {l : List Char} {g : List Char}
    (h : m_episodioCore l = some g) : goodG g := by
  simp only [m_episodioCore, Option.pure_def, Option.bind_eq_bind, Option.bind_eq_some] at h
  obtain ⟨r, -, ⟨r2, -, ⟨⟨gg, rr⟩, hd, h⟩⟩⟩ := h
  simp only [Option.some.injEq] at h
  subst h
  exact digits1_good hd

theorem m_episodeWord_good {l : List Char} {g : List Char}
    (h : m_episodeWord l = some g) : goodG g := by
  simp only [m_episodeWord, Option.pure_def, Option.bind_eq_bind, Option.bind_eq_some] at h
  obtain ⟨r, -, ⟨r2, -, ⟨⟨gg, rr⟩, hd, h⟩⟩⟩ := h
  simp only [Option.some.injEq] at h
  subst h
  exact digits1_good hd

theorem m_epWs_good {l : List Char} {g : List Char}
    (h : m_epWs l = some g) : goodG g := by
  simp only [m_epWs, Option.pure_def, Option.bind_eq_bind, Option.bind_eq_some] at h
  obtain ⟨r, -, ⟨r2, -, ⟨⟨gg, rr⟩, hd, h⟩⟩⟩ := h
  simp only [Option.some.injEq] at h
  subst h
  exact digits1_good hd

theorem seasonCtxCont_good {l : List Char} {g : List Char}
    (h : seasonCtxCont l = some g) : goodG g :=
  digits1_fst_good h

theorem m_seasonCtx_good {l : List Char} {g : List Char}
    (h : m_seasonCtx l = some g) : goodG g := by
  cases l with
  | nil => simp [m_seasonCtx] at h
  | cons c r =>
    rw [show m_seasonCtx (c :: r)
        = (if isSch c then
            match strCI ['t', 'a', 'g', 'i', 'o', 'n', 'e'] r with
            | some r2 =>
              match seasonCtxCont r2 with
              | some g => some g
              | none =>
                match strCI ['e', 'a', 's', 'o', 'n'] r with
                | some r3 =>
                  match seasonCtxCont r3 with
                  | some g => some g
                  | none => seasonCtxCont r
                | none => seasonCtxCont r
            | none =>
              match strCI ['e', 'a', 's', 'o', 'n'] r with
              | some r3 =>
                match seasonCtxCont r3 with
                | some g => some g
                | none => seasonCtxCont r
              | none => seasonCtxCont r
          else none) from rfl] at h
    split at h
    · split at h
      · split at h
        · rename_i heq
          simp only [Option.some.injEq] at h
          subst h
          exact seasonCtxCont_good heq
        · split at h
          · split at h
            · rename_i heq
              simp only [Option.some.injEq] at h
              subst h
              exact seasonCtxCont_good heq
            · exact seasonCtxCont_good h
          · exact seasonCtxCont_good h
      · split at h
        · split at h
          · rename_i heq
            simp only [Option.some.injEq] at h
            subst h
            exact seasonCtxCont_good heq
          · exact seasonCtxCont_good h
        · exact seasonCtxCont_good h
    · simp at h

theorem searchG_lift {α : Type} {P : α → Prop} {m : List Char → Option α}
    (hm : ∀ l a, m l = some a → P a) :
    ∀ l a, searchG m l = some a → P a := by
  intro l
  induction l with
  | nil => exact fun a h => hm [] a h
  | cons c t ih =>
    intro a h
    rw [show searchG m (c :: t)
        = (match m (c :: t) with | some g => some g | none => searchG m t) from rfl] at h
    rcases hmc : m (c :: t) with _ | g
    · rw [hmc] at h; exact ih a h
    · rw [hmc] at h
      simp only [Option.some.injEq] at h
      subst h
      exact hm _ _ hmc

theorem searchNWPrefix_lift {α : Type} {P : α → Prop} {m : List Char → Option α}
    (hm : ∀ l a, m l = some a → P a) :
    ∀ l a, searchNWPrefix m l = some a → P a := by
  intro l
  induction l with
  | nil => intro a h; simp [searchNWPrefix] at h
  | cons c t ih =>
    intro a h
    rw [show searchNWPrefix m (c :: t)
        = (if !isWord c then
            match m t with
            | some g => some g
            | none => searchNWPrefix m t
          else searchNWPrefix m t) from rfl] at h
    split at h
    · rcases hmc : m t with _ | g
      · rw [hmc] at h; exact ih a h
      · rw [hmc] at h
        simp only [Option.some.injEq] at h
        subst h
        exact hm _ _ hmc
    · exact ih a h

theorem searchAnchoredOrNW_lift {α : Type} {P : α → Prop} {m : List Char → Option α}
    (hm : ∀ l a, m l = some a → P a) :
    ∀ l a, searchAnchoredOrNW m l = some a → P a := by
  intro l a h
  rw [show searchAnchoredOrNW m l
      = (match m l with | some g => some g | none => searchNWPrefix m l) from rfl] at h
  rcases hmc : m l with _ | g
  · rw [hmc] at h; exact searchNWPrefix_lift hm l a h
  · rw [hmc] at h
    simp only [Option.some.injEq] at h
    subst h
    exact hm _ _ hmc

theorem branchSE_ok {g1 g2 : List Char} (h1 : goodG g1) (h2 : goodG g2) :
    exOk (branchSE g1 g2) = true := by
  obtain ⟨n1, e1⟩ := pyInt_good h1
  obtain ⟨n2, e2⟩ := pyInt_good h2
  simp [branchSE, e1, e2, exOk, Bind.bind, Except.bind, Pure.pure, Except.pure]

theorem branchSeasonPack_ok {g : List Char} (h : goodG g) :
    exOk (branchSeasonPack g) = true := by
  obtain ⟨n, e⟩ := pyInt_good h
  simp [branchSeasonPack, e, exOk, Bind.bind, Except.bind, Pure.pure, Except.pure]

theorem branchBareEp_ok {text g : List Char} (h : goodG g) :
    exOk (branchBareEp text g) = true := by
  rw [show branchBareEp text g
      = (match searchG m_seasonCtx text with
        | some gs => do
          let season ← pyInt gs
          let episode ← pyInt g
          pure (⟨fmtSE season episode⟩ : String)
        | none => do
          let episode ← pyInt g
          pure (⟨fmtBareEp episode⟩ : String)) from rfl]
  rcases hs : searchG m_seasonCtx text with _ | gs
  · obtain ⟨n, e⟩ := pyInt_good h
    simp [e, exOk, Bind.bind, Except.bind, Pure.pure, Except.pure]
  · have hgs : goodG gs := searchG_lift (fun l a ha => m_seasonCtx_good ha) text gs hs
    obtain ⟨n1, e1⟩ := pyInt_good hgs
    obtain ⟨n2, e2⟩ := pyInt_good h
    simp [e1, e2, exOk, Bind.bind, Except.bind, Pure.pure, Except.pure]

theorem episode_info_core_isOk (t : List Char) : exOk (episode_info_core t) = true := by
  unfold episode_info_core
  split
  · rename_i g1 g2 heq
    have := @searchG_lift _ (fun p => goodG p.1 ∧ goodG p.2) _ (fun l a ha => by
      obtain ⟨ga, gb⟩ := a
      exact m_SxEy_good ha) t (g1, g2) heq
    exact branchSE_ok this.1 this.2
  split
  · rename_i g1 g2 heq
    have := @searchG_lift _ (fun p => goodG p.1 ∧ goodG p.2) _ (fun l a ha => by
      obtain ⟨ga, gb⟩ := a
      exact m_NxM_good ha) t (g1, g2) heq
    exact branchSE_ok this.1 this.2
  split
  · rename_i g1 g2 heq
    have := @searchG_lift _ (fun p => goodG p.1 ∧ goodG p.2) _ (fun l a ha => by
      obtain ⟨ga, gb⟩ := a
      exact m_ordSeasonEp_good ha) t (g1, g2) heq
    exact branchSE_ok this.1 this.2
  split
  · rename_i g1 g2 heq
    have := @searchG_lift _ (fun p => goodG p.1 ∧ goodG p.2) _ (fun l a ha => by
      obtain ⟨ga, gb⟩ := a
      exact m_seasonWordEp_good ha) t (g1, g2) heq
    exact branchSE_ok this.1 this.2
  split
  · rename_i g1 g2 heq
    have := @searchG_lift _ (fun p => goodG p.1 ∧ goodG p.2) _ (fun l a ha => by
      obtain ⟨ga, gb⟩ := a
      exact m_stagioneWordEp_good ha) t (g1, g2) heq
    exact branchSE_ok this.1 this.2
  split
  · rename_i g heq
    exact branchSeasonPack_ok (searchG_lift (fun l a ha => m_stagioneOnly_good ha) t g heq)
  split
  · rename_i g heq
    exact branchSeasonPack_ok (searchG_lift (fun l a ha => m_seasonOnly_good ha) t g heq)
  split
  · rename_i g heq
    exact branchSeasonPack_ok (searchG_lift (fun l a ha => m_ordSeason_good ha) t g heq)
  split
  · rename_i g heq
    exact branchBareEp_ok (searchAnchoredOrNW_lift (fun l a ha => m_epCore_good ha) t g heq)
  split
  · rename_i g heq
    exact branchBareEp_ok (searchAnchoredOrNW_lift (fun l a ha => m_episodioCore_good ha) t g heq)
  split
  · rename_i g heq
    exact branchBareEp_ok (searchG_lift (fun l a ha => m_episodeWord_good ha) t g heq)
  split
  · rename_i g heq
    exact branchBareEp_ok (searchG_lift (fun l a ha => m_epWs_good ha) t g heq)
  · rfl

theorem takeDigits_good {l g r : List Char} (h : takeDigits l = (g, r))
    (hne : g.isEmpty = false) : goodG g := by
  rw [show takeDigits l = (l.takeWhile isDig, l.dropWhile isDig) from rfl] at h
  obtain ⟨rfl, -⟩ := Prod.mk.injEq .. ▸ h
  refine ⟨by simpa [List.isEmpty_iff] using hne, ?_⟩
  simp only [List.all_eq_true]
  exact fun c hc => List.mem_takeWhile_imp hc

theorem mPA_good {l : List Char} {g1 g2 : List Char} {og3 : Option (List Char)}
    {rest : List Char} (h : mPA l = some (g1, g2, og3, rest)) :
    goodTriple (g1, g2, og3) := by
  unfold mPA at h
  split at h
  · simp at h
  · split at h
    case isFalse => simp at h
    case isTrue c r hS =>
    split at h
    rename_i ga r1 h1
    split at h
    case isTrue => simp at h
    case isFalse hne1 =>
    split at h
    · simp at h
    rename_i e r2 hr1
    split at h
    case isFalse => simp at h
    case isTrue hE =>
    split at h
    rename_i gb r3 h2
    split at h
    case isTrue => simp at h
    case isFalse hne2 =>
    have good1 : goodG ga := takeDigits_good h1 (by simpa using hne1)
    have good2 : goodG gb := takeDigits_good h2 (by simpa using hne2)
    split at h
    · split at h
      case isFalse =>
        simp only [Option.some.injEq, Prod.mk.injEq] at h
        obtain ⟨rfl, rfl, rfl, -⟩ := h
        exact ⟨good1, good2, by simp⟩
      case isTrue e2 r4 hr3 hE2 =>
      split at h
      rename_i gc r5 h3
      split at h
      · simp only [Option.some.injEq, Prod.mk.injEq] at h
        obtain ⟨rfl, rfl, rfl, -⟩ := h
        exact ⟨good1, good2, by simp⟩
      · rename_i hne3
        simp only [Option.some.injEq, Prod.mk.injEq] at h
        obtain ⟨rfl, rfl, rfl, -⟩ := h
        exact ⟨good1, good2, fun g3 hg3 => by
          obtain rfl : gc = g3 := by simpa using hg3
          exact takeDigits_good h3 (by simpa using hne3)⟩
    · simp only [Option.some.injEq, Prod.mk.injEq] at h
      obtain ⟨rfl, rfl, rfl, -⟩ := h
      exact ⟨good1, good2, by simp⟩

theorem mPB_good {l : List Char} {g1 g2 : List Char} {og3 : Option (List Char)}
    {rest : List Char} (h : mPB l = some (g1, g2, og3, rest)) :
    goodTriple (g1, g2, og3) := by
  unfold mPB at h
  split at h
  rename_i ga r1 h1
  split at h
  case isTrue => simp at h
  case isFalse hne1 =>
  split at h
  · simp at h
  rename_i x r2 hr1
  split at h
  case isFalse => simp at h
  case isTrue hx =>
  split at h
  rename_i gb r3 h2
  split at h
  case isTrue => simp at h
  case isFalse hne2 =>
  have good1 : goodG ga := takeDigits_good h1 (by simpa using hne1)
  have good2 : goodG gb := takeDigits_good h2 (by simpa using hne2)
  split at h
  · rename_i r4 hr3
    split at h
    rename_i gc r5 h3
    split at h
    · simp only [Option.some.injEq, Prod.mk.injEq] at h
      obtain ⟨rfl, rfl, rfl, -⟩ := h
      exact ⟨good1, good2, by simp⟩
    · rename_i hne3
      simp only [Option.some.injEq, Prod.mk.injEq] at h
      obtain ⟨rfl, rfl, rfl, -⟩ := h
      exact ⟨good1, good2, fun g3 hg3 => by
        obtain rfl : gc = g3 := by simpa using hg3
        exact takeDigits_good h3 (by simpa using hne3)⟩
  · simp only [Option.some.injEq, Prod.mk.injEq] at h
    obtain ⟨rfl, rfl, rfl, -⟩ := h
    exact ⟨good1, good2, by simp⟩

theorem finditScan_good {m : List Char → Option (List Char × List Char × Option (List Char) × List Char)}
    (hm : ∀ l g1 g2 og3 rest, m l = some (g1, g2, og3, rest) → goodTriple (g1, g2, og3)) :
    ∀ fuel l t, t ∈ finditScan m fuel l → goodTriple t := by
  intro fuel
  induction fuel with
  | zero => intro l t ht; simp [finditScan] at ht
  | succ f ih =>
    intro l t ht
    cases l with
    | nil => simp [finditScan] at ht
    | cons c tl =>
      rw [show finditScan m (f + 1) (c :: tl)
          = (match m (c :: tl) with
            | some (g1, g2, g3, rest) => (g1, g2, g3) :: finditScan m f rest
            | none => finditScan m f tl) from rfl] at ht
      rcases hmc : m (c :: tl) with _ | ⟨g1, g2, og3, rest⟩
      · rw [hmc] at ht; exact ih tl t ht
      · rw [hmc] at ht
        rcases List.mem_cons.mp ht with rfl | ht2
        · exact hm _ _ _ _ _ hmc
        · exact ih rest t ht2

theorem exOk_iff {α : Type} (e : Except String α) : exOk e = true ↔ ∃ r, e = .ok r := by
  cases e <;> simp [exOk]

theorem addMatchEpisodes_ok (acc : List String)
    {t : List Char × List Char × Option (List Char)} (ht : goodTriple t) :
    ∃ r, addMatchEpisodes acc t = .ok r := by
  rw [← exOk_iff]
  obtain ⟨h1, h2, h3⟩ := ht
  obtain ⟨n1, e1⟩ := pyInt_good h1
  obtain ⟨n2, e2⟩ := pyInt_good h2
  rcases hog : t.2.2 with _ | g3
  · simp [addMatchEpisodes, e1, e2, hog, exOk, Bind.bind, Except.bind,
      Pure.pure, Except.pure]
  · obtain ⟨n3, e3⟩ := pyInt_good (h3 g3 hog)
    simp [addMatchEpisodes, e1, e2, e3, hog, exOk, Bind.bind, Except.bind,
      Pure.pure, Except.pure]

theorem foldlM_addMatch_ok (xs : List (List Char × List Char × Option (List Char)))
    (hxs : ∀ t ∈ xs, goodTriple t) :
    ∀ acc, ∃ r, xs.foldlM addMatchEpisodes acc = .ok r := by
  induction xs with
  | nil => exact fun acc => ⟨acc, rfl⟩
  | cons x tl ih =>
    intro acc
    obtain ⟨r1, h1⟩ := addMatchEpisodes_ok acc (hxs x (List.mem_cons_self x tl))
    obtain ⟨r2, h2⟩ := ih (fun t ht => hxs t (List.mem_cons_of_mem x ht)) r1
    exact ⟨r2, by
      rw [show (x :: tl).foldlM addMatchEpisodes acc
          = addMatchEpisodes acc x >>= fun s => tl.foldlM addMatchEpisodes s from rfl]
      simp [h1, h2, Bind.bind, Except.bind]⟩

theorem parse_needed_core_isOk (path : List Char) : exOk (parse_needed_core path) = true := by
  obtain ⟨r1, h1⟩ := foldlM_addMatch_ok (finditScan mPA path.length path)
    (fun t ht => finditScan_good (fun l g1 g2 og3 rest h => mPA_good h) path.length path t ht) []
  obtain ⟨r2, h2⟩ := foldlM_addMatch_ok (finditScan mPB path.length path)
    (fun t ht => finditScan_good (fun l g1 g2 og3 rest h => mPB_good h) path.length path t ht) r1
  rw [show parse_needed_core path
      = ((finditScan mPA path.length path).foldlM addMatchEpisodes [] >>= fun acc =>
          (finditScan mPB path.length path).foldlM addMatchEpisodes acc) from rfl]
  simp [h1, h2, exOk, Bind.bind, Except.bind]

/-- Witness for C9 at the concrete code S05E04. -/
theorem c9_extract_idempotent_witness :
    (5 < 100 ∧ 4 < 100) ∧ extract_episode_info_text ⟨fmtSE 5 4⟩ = ⟨fmtSE 5 4⟩ :=
  ⟨⟨by decide, by decide⟩, c9_extract_idempotent 5 4 (by decide) (by decide)⟩

/-- C10.  Totality of the parsing core: for every string input the
episode-info pattern cascade and the needed-episode parser complete
without an exception — every `int(...)` conversion they perform
receives a non-empty digit string, so the `try`/`except` wrappers never
fire.  (The remaining two parsing functions, `extract_episode_codes`
and `extract_base_series_name`, contain no fallible operation at all in
the embedding: they are plain total functions returning the empty set
or an absent value on a parse miss.) -/
theorem c10_parsing_total (s : String) :
    exOk (episode_info_core s.data) = true ∧ exOk (parse_needed_core s.data) = true :=
  ⟨episode_info_core_isOk s.data, parse_needed_core_isOk s.data⟩

/-- C2 counterexample: for the shape-conforming title `c2Title`, whose
spec-cleaned form differs from the literal title, the generated
sequence's second element is the source's cleaned title, which retains
the codec token `x264` and therefore differs from the spec's cleaned
title (extensions, resolution AND codec tokens stripped). -/
theorem c2_counterexample_codec_not_stripped :
    spec_cleaned_title c2Title = "Show - S01E02" ∧
    spec_cleaned_title c2Title ≠ c2Title ∧
    (build_enhanced_search_queries c2Title none none none).get? 1
      = some ("clean_title", "Show - S01E02 x264") ∧
    ("Show - S01E02 x264" : String) ≠ "Show - S01E02" :=
  ⟨rfl, by decide, rfl, by decide⟩

/-- C2 amended: for every release title whose source-cleaned form
(extensions, the quality tokens 1080p/720p/2160p/4K/UHD/BluRay/WEB-DL/HDTV,
and a trailing `-GROUP` suffix stripped — codec tokens retained)
differs from the literal title, the generated ordered query sequence
has the exact literal title first and that cleaned title second,
whatever the metadata arguments. -/
theorem c2_amended_first_two (t : String) (series : Option String) (season episode : Option Nat)
    (h : clean_release_title_for_search t ≠ t) :
    (build_enhanced_search_queries t series season episode).get? 0 = some ("exact_title", t) ∧
    (build_enhanced_search_queries t series season episode).get? 1
      = some ("clean_title", clean_release_title_for_search t) := by
  simp [build_enhanced_search_queries, h]

/-- Witness for the amended C2 at the concrete title `c2Title`. -/
theorem c2_amended_first_two_witness :
    clean_release_title_for_search c2Title ≠ c2Title ∧
    (build_enhanced_search_queries c2Title none none none).get? 0
      = some ("exact_title", c2Title) ∧
    (build_enhanced_search_queries c2Title none none none).get? 1
      = some ("clean_title", clean_release_title_for_search c2Title) :=
  ⟨by decide, (c2_amended_first_two c2Title none none none (by decide)).1,
    (c2_amended_first_two c2Title none none none (by decide)).2⟩


/-! ### C7: base series name and season number for dash-SE titles -/

theorem alpha_not_ws {c : Char} (h : c.isAlpha = true) : isWs c = false := by
  have h1 : c ≠ ' ' := by rintro rfl; exact absurd h (by decide)
  have h2 : c ≠ '\t' := by rintro rfl; exact absurd h (by decide)
  have h3 : c ≠ '\n' := by rintro rfl; exact absurd h (by decide)
  have h4 : c ≠ '\r' := by rintro rfl; exact absurd h (by decide)
  have h5 : c ≠ '\x0b' := by rintro rfl; exact absurd h (by decide)
  have h6 : c ≠ '\x0c' := by rintro rfl; exact absurd h (by decide)
  simp [isWs, h1, h2, h3, h4, h5, h6]

theorem alpha_not_dig {c : Char} (h : c.isAlpha = true) : isDig c = false := by
  simp only [Char.isAlpha, Char.isUpper, Char.isLower, Bool.or_eq_true, Bool.and_eq_true,
    decide_eq_true_eq] at h
  by_contra hd
  simp only [Bool.not_eq_false, isDig, Bool.and_eq_true, decide_eq_true_eq,
    Char.le_def] at hd
  rcases h with ⟨h1, h2⟩ | ⟨h1, h2⟩
  · exact absurd (UInt32.le_trans h1 hd.2) (by decide)
  · exact absurd (UInt32.le_trans h1 hd.2) (by decide)

theorem alpha_ne_dash {c : Char} (h : c.isAlpha = true) : c ≠ '-' := by
  rintro rfl; exact absurd h (by decide)

theorem alpha_ne_lbracket {c : Char} (h : c.isAlpha = true) : c ≠ '[' := by
  rintro rfl; exact absurd h (by decide)

theorem alpha_ne_lparen {c : Char} (h : c.isAlpha = true) : c ≠ '(' := by
  rintro rfl; exact absurd h (by decide)

theorem alpha_ne_nl {c : Char} (h : c.isAlpha = true) : c ≠ '\n' := by
  rintro rfl; exact absurd h (by decide)

theorem aos_cases {c : Char} (h : aos c = true) : c.isAlpha = true ∨ c = ' ' := by
  simpa [aos] using h

theorem aos_not_dig {c : Char} (h : aos c = true) : isDig c = false := by
  rcases aos_cases h with ha | rfl
  · exact alpha_not_dig ha
  · decide

theorem aos_ne_lbracket {c : Char} (h : aos c = true) : c ≠ '[' := by
  rcases aos_cases h with ha | rfl
  · exact alpha_ne_lbracket ha
  · decide

theorem aos_ne_lparen {c : Char} (h : aos c = true) : c ≠ '(' := by
  rcases aos_cases h with ha | rfl
  · exact alpha_ne_lparen ha
  · decide

theorem aos_ne_nl {c : Char} (h : aos c = true) : c ≠ '\n' := by
  rcases aos_cases h with ha | rfl
  · exact alpha_ne_nl ha
  · decide

theorem dig_not_ws {c : Char} (h : isDig c = true) : isWs c = false := by
  simp only [isDig, Bool.and_eq_true, decide_eq_true_eq] at h
  have h1 : c ≠ ' ' := by rintro rfl; exact absurd h.1 (by decide)
  have h2 : c ≠ '\t' := by rintro rfl; exact absurd h.1 (by decide)
  have h3 : c ≠ '\n' := by rintro rfl; exact absurd h.1 (by decide)
  have h4 : c ≠ '\r' := by rintro rfl; exact absurd h.1 (by decide)
  have h5 : c ≠ '\x0b' := by rintro rfl; exact absurd h.1 (by decide)
  have h6 : c ≠ '\x0c' := by rintro rfl; exact absurd h.1 (by decide)
  simp [isWs, h1, h2, h3, h4, h5, h6]

theorem dig_ne_nl {c : Char} (h : isDig c = true) : c ≠ '\n' := by
  rintro rfl; exact absurd h (by decide)

theorem dig_ne_lbracket {c : Char} (h : isDig c = true) : c ≠ '[' := by
  rintro rfl; exact absurd h (by decide)

theorem pad2_mem_dig {n : Nat} (h : n < 100) {c : Char} (hc : c ∈ pad2 n) :
    isDig c = true := by
  have := pad2_all_dig h
  simp only [List.all_eq_true] at this
  exact this c hc


theorem all_of_sub {l l' : List Char} {q : Char → Bool} (hs : l' ⊆ l)
    (h : l.all q = true) : l'.all q = true := by
  simp only [List.all_eq_true] at *
  exact fun c hc => h c (hs hc)

theorem dropWhile_subset {p : Char → Bool} (l : List Char) : l.dropWhile p ⊆ l :=
  (List.dropWhile_sublist p (l := l)).subset

theorem takeWhile_nil_of_all_not {p : Char → Bool} {l : List Char}
    (h : l.all (fun c => !p c) = true) : l.takeWhile p = [] := by
  cases l with
  | nil => rfl
  | cons c t =>
    simp only [List.all_cons, Bool.and_eq_true, Bool.not_eq_true'] at h
    simp [List.takeWhile_cons, h.1]

theorem dropWhile_self_of_all_not {p : Char → Bool} {l : List Char}
    (h : l.all (fun c => !p c) = true) : l.dropWhile p = l := by
  cases l with
  | nil => rfl
  | cons c t =>
    simp only [List.all_cons, Bool.and_eq_true, Bool.not_eq_true'] at h
    simp [List.dropWhile_cons, h.1]

theorem digits1_none_of_nodig {l : List Char} (h : l.all (fun c => !isDig c) = true) :
    digits1 l = none := by
  rw [show digits1 l
      = (if (l.takeWhile isDig).isEmpty then none
         else some (l.takeWhile isDig, l.dropWhile isDig)) from rfl]
  rw [takeWhile_nil_of_all_not h]
  rfl

/-- A general digit-prefix lemma: leading all-digit block, then a
non-digit-headed remainder. -/
theorem digits1_pad2_gen {n : Nat} (hn : n < 100) {rest : List Char}
    (h : rest.all (fun c => !isDig c) = true) :
    digits1 (pad2 n ++ rest) = some (pad2 n, rest) := by
  rw [show digits1 (pad2 n ++ rest)
      = (if ((pad2 n ++ rest).takeWhile isDig).isEmpty then none
         else some ((pad2 n ++ rest).takeWhile isDig, (pad2 n ++ rest).dropWhile isDig))
      from rfl]
  rw [takeWhile_append_of_all (pad2_all_dig hn), dropWhile_append_of_all (pad2_all_dig hn)]
  rw [takeWhile_nil_of_all_not h, dropWhile_self_of_all_not h]
  simp [List.isEmpty_iff, pad2_ne_nil hn]

theorem pyStrip_id {l : List Char}
    (hh : ∀ c, l.head? = some c → isWs c = false)
    (hl : ∀ c, l.getLast? = some c → isWs c = false) : pyStrip l = l := by
  have h1 : l.dropWhile isWs = l := by
    cases l with
    | nil => rfl
    | cons c t => simp [List.dropWhile_cons, hh c rfl]
  have h2 : l.reverse.dropWhile isWs = l.reverse := by
    cases hr : l.reverse with
    | nil => rfl
    | cons c t =>
      have : l.getLast? = some c := by
        rw [← List.head?_reverse, hr]; rfl
      simp [List.dropWhile_cons, hl c this]
  unfold pyStrip
  rw [h1, h2, List.reverse_reverse]

theorem dropWhile_head_not {p : Char → Bool} :
    ∀ (l : List Char) {c : Char} {t : List Char}, l.dropWhile p = c :: t → p c = false := by
  intro l
  induction l with
  | nil => intro c t h; simp at h
  | cons a l ih =>
    intro c t h
    rw [List.dropWhile_cons] at h
    split at h
    · exact ih h
    · obtain ⟨rfl, -⟩ := List.cons.injEq .. ▸ h
      simpa using ‹¬p a = true›

theorem dropWhile_ws_aos {X : List Char} (h : X.all aos = true) :
    X.dropWhile isWs = [] ∨
    ∃ c t, X.dropWhile isWs = c :: t ∧ c.isAlpha = true ∧ (c :: t).all aos = true := by
  cases hd : X.dropWhile isWs with
  | nil => exact Or.inl rfl
  | cons c t =>
    refine Or.inr ⟨c, t, rfl, ?_, ?_⟩
    · have hmem : c ∈ X := (dropWhile_subset X) (hd ▸ List.mem_cons_self c t)
      have haos : aos c = true := by
        simp only [List.all_eq_true] at h; exact h c hmem
      have hnws : isWs c = false := dropWhile_head_not X hd
      rcases aos_cases haos with ha | rfl
      · exact ha
      · exact absurd hnws (by decide)
    · exact all_of_sub (fun x hx => (dropWhile_subset X) (hd ▸ hx)) h

theorem all_nodig_of_hrest {rest : List Char}
    (h : rest.all (fun c => !isDig c && !(c = '[') && !(c = '(') && !(c = '\n')) = true) :
    rest.all (fun c => !isDig c) = true := by
  simp only [List.all_eq_true, Bool.and_eq_true] at *
  exact fun c hc => (h c hc).1.1.1

theorem mm_nonws {c : Char} {t : List Char} (h : isWs c = false) :
    mMultiTail (c :: t) = false := by
  simp [mMultiTail, ws1, h]

theorem digits1_isSome_false_of_nodig {l : List Char}
    (h : l.all (fun c => !isDig c) = true) : (digits1 l).isSome = false := by
  rw [digits1_none_of_nodig h]; rfl

theorem a1rest_nodig {r : List Char} (h : r.all (fun c => !isDig c) = true) :
    a1rest r = false := by
  have key : ∀ r2 : List Char, r2.all (fun c => !isDig c) = true →
      (match r2.dropWhile isDig with
        | e :: r4 => isEch e && (digits1 r4).isSome
        | [] => false) = false := by
    intro r2 h2
    rw [dropWhile_self_of_all_not h2]
    cases r2 with
    | nil => rfl
    | cons e r4 =>
      have h4 : r4.all (fun c => !isDig c) = true :=
        all_of_sub (List.subset_cons_self e r4) h2
      simp [digits1_isSome_false_of_nodig h4]
  rcases r with _ | ⟨s, rr⟩
  · simp [a1rest]
  · by_cases hS : isSch s = true
    · rw [show a1rest (s :: rr)
          = (match rr.dropWhile isDig with
            | e :: r4 => isEch e && (digits1 r4).isSome
            | [] => false) by simp [a1rest, hS]]
      exact key rr (all_of_sub (List.subset_cons_self s rr) h)
    · rw [show a1rest (s :: rr)
          = (match (s :: rr).dropWhile isDig with
            | e :: r4 => isEch e && (digits1 r4).isSome
            | [] => false) by simp [a1rest, hS]]
      exact key (s :: rr) h

theorem altA_nodig {r : List Char} (h : r.all (fun c => !isDig c) = true) :
    altA r = false := by
  cases r with
  | nil => rfl
  | cons c t =>
    have ht : t.all (fun c => !isDig c) = true :=
      all_of_sub (List.subset_cons_self c t) h
    rw [show altA (c :: t)
        = (if c = '-' ∨ c = '~' then a1rest t || (digits1 t).isSome
           else if isEch c then (digits1 t).isSome
           else false) from rfl]
    by_cases h1 : c = '-' ∨ c = '~'
    · rw [if_pos h1, a1rest_nodig ht, digits1_none_of_nodig ht]
      rfl
    · rw [if_neg h1]
      by_cases h2 : isEch c = true
      · rw [if_pos h2, digits1_none_of_nodig ht]
        rfl
      · rw [if_neg h2]

theorem mm_nodig {l : List Char} (h : l.all (fun c => !isDig c) = true) :
    mMultiTail l = false := by
  cases l with
  | nil => rfl
  | cons c t =>
    by_cases hws : isWs c = true
    · have ht : (skipWs t).all (fun x => !isDig x) = true :=
        all_of_sub (fun x hx => List.subset_cons_self c t ((dropWhile_subset t) hx)) h
      rw [show mMultiTail (c :: t)
          = (match ws1 (c :: t) with
            | some r =>
              match r with
              | c2 :: r2 =>
                if isSch c2 then
                  match digits1 r2 with
                  | some (_, e :: r3) =>
                    if isEch e then
                      match digits1 r3 with
                      | some (_, r4) => altA r4
                      | none => false
                    else false
                  | _ => false
                else false
              | [] => false
            | none => false) from rfl]
      rw [show ws1 (c :: t) = some (skipWs t) by simp [ws1, hws]]
      rcases hr : skipWs t with _ | ⟨c2, r2⟩
      · rfl
      · rw [hr] at ht
        simp only [List.all_cons, Bool.and_eq_true] at ht
        show (if isSch c2 = true then
            match digits1 r2 with
            | some (_, e :: r3) =>
              if isEch e = true then
                match digits1 r3 with
                | some (_, r4) => altA r4
                | none => false
              else false
            | _ => false
          else false) = false
        rw [digits1_none_of_nodig ht.2]
        split <;> rfl
    · exact mm_nonws (by simpa using hws)

theorem skipWs_cons_nonws {c : Char} {t : List Char} (h : isWs c = false) :
    skipWs (c :: t) = c :: t := by
  simp [skipWs, List.dropWhile_cons, h]

theorem digits1_cons_nondig {y : Char} {t : List Char} (h : isDig y = false) :
    digits1 (y :: t) = none := by
  rw [show digits1 (y :: t)
      = (if ((y :: t).takeWhile isDig).isEmpty then none
         else some ((y :: t).takeWhile isDig, (y :: t).dropWhile isDig)) from rfl]
  simp [List.takeWhile_cons, h]

theorem dropWhile_append_nil {p : Char → Bool} {l1 l2 : List Char}
    (h : l1.dropWhile p = []) : (l1 ++ l2).dropWhile p = l2.dropWhile p := by
  induction l1 with
  | nil => rfl
  | cons a t ih =>
    rw [List.dropWhile_cons] at h
    split at h
    · rw [List.cons_append, List.dropWhile_cons, if_pos ‹_›]
      exact ih h
    · simp at h

theorem dropWhile_append_cons {p : Char → Bool} {l1 l2 : List Char} {c : Char}
    {t : List Char} (h : l1.dropWhile p = c :: t) :
    (l1 ++ l2).dropWhile p = c :: (t ++ l2) := by
  induction l1 with
  | nil => simp at h
  | cons a t1 ih =>
    rw [List.dropWhile_cons] at h
    split at h
    · rw [List.cons_append, List.dropWhile_cons, if_pos ‹_›]
      exact ih h
    · obtain ⟨rfl, rfl⟩ := List.cons.injEq .. ▸ h
      rw [List.cons_append, List.dropWhile_cons, if_neg ‹_›]

theorem mm_space2 {ss ee : Nat} (hss : ss < 100) (hee : ee < 100) {rest : List Char}
    (hrd : rest.all (fun c => !isDig c) = true) :
    mMultiTail (' ' :: 'S' :: (pad2 ss ++ 'E' :: (pad2 ee ++ rest))) = false := by
  have h1 : ws1 (' ' :: 'S' :: (pad2 ss ++ 'E' :: (pad2 ee ++ rest)))
      = some ('S' :: (pad2 ss ++ 'E' :: (pad2 ee ++ rest))) := by
    rw [show ws1 (' ' :: 'S' :: (pad2 ss ++ 'E' :: (pad2 ee ++ rest)))
        = (if isWs ' ' then some (skipWs ('S' :: (pad2 ss ++ 'E' :: (pad2 ee ++ rest))))
           else none) from rfl]
    rw [if_pos (by decide), skipWs_cons_nonws (by decide)]
  rw [show mMultiTail (' ' :: 'S' :: (pad2 ss ++ 'E' :: (pad2 ee ++ rest)))
      = (match ws1 (' ' :: 'S' :: (pad2 ss ++ 'E' :: (pad2 ee ++ rest))) with
        | some r =>
          match r with
          | c2 :: r2 =>
            if isSch c2 then
              match digits1 r2 with
              | some (_, e :: r3) =>
                if isEch e then
                  match digits1 r3 with
                  | some (_, r4) => altA r4
                  | none => false
                else false
              | _ => false
            else false
          | [] => false
        | none => false) from rfl]
  rw [h1]
  show (if isSch 'S' = true then
      match digits1 (pad2 ss ++ 'E' :: (pad2 ee ++ rest)) with
      | some (_, e :: r3) =>
        if isEch e = true then
          match digits1 r3 with
          | some (_, r4) => altA r4
          | none => false
        else false
      | _ => false
    else false) = false
  rw [if_pos (by decide), digits1_pad2_cons hss 'E' (by decide) (pad2 ee ++ rest)]
  show (if isEch 'E' = true then
      match digits1 (pad2 ee ++ rest) with
      | some (_, r4) => altA r4
      | none => false
    else false) = false
  rw [if_pos (by decide), digits1_pad2_gen hee hrd]
  show altA rest = false
  exact altA_nodig hrd

theorem mm_dashB {bs : List Char} : mMultiTail (' ' :: '-' :: bs) = false := by
  rw [show mMultiTail (' ' :: '-' :: bs)
      = (match ws1 (' ' :: '-' :: bs) with
        | some r =>
          match r with
          | c2 :: r2 =>
            if isSch c2 then
              match digits1 r2 with
              | some (_, e :: r3) =>
                if isEch e then
                  match digits1 r3 with
                  | some (_, r4) => altA r4
                  | none => false
                else false
              | _ => false
            else false
          | [] => false
        | none => false) from rfl]
  rw [show ws1 (' ' :: '-' :: bs) = some (skipWs ('-' :: bs)) from by
    rw [show ws1 (' ' :: '-' :: bs)
        = (if isWs ' ' then some (skipWs ('-' :: bs)) else none) from rfl]
    rw [if_pos (by decide)]]
  rw [skipWs_cons_nonws (by decide)]
  show (if isSch '-' = true then _ else false) = false
  rw [if_neg (by decide)]

theorem mm_aosXB {bs : List Char} {X : List Char} (hall : X.all aos = true) :
    mMultiTail (X ++ ' ' :: '-' :: bs) = false := by
  cases X with
  | nil => exact mm_dashB
  | cons c X2 =>
    simp only [List.all_cons, Bool.and_eq_true] at hall
    rcases aos_cases hall.1 with ha | rfl
    · exact mm_nonws (alpha_not_ws ha)
    · rw [List.cons_append]
      rw [show mMultiTail (' ' :: (X2 ++ ' ' :: '-' :: bs))
          = (match ws1 (' ' :: (X2 ++ ' ' :: '-' :: bs)) with
            | some r =>
              match r with
              | c2 :: r2 =>
                if isSch c2 then
                  match digits1 r2 with
                  | some (_, e :: r3) =>
                    if isEch e then
                      match digits1 r3 with
                      | some (_, r4) => altA r4
                      | none => false
                    else false
                  | _ => false
                else false
              | [] => false
            | none => false) from rfl]
      rw [show ws1 (' ' :: (X2 ++ ' ' :: '-' :: bs))
          = some (skipWs (X2 ++ ' ' :: '-' :: bs)) from by
        rw [show ws1 (' ' :: (X2 ++ ' ' :: '-' :: bs))
            = (if isWs ' ' then some (skipWs (X2 ++ ' ' :: '-' :: bs)) else none) from rfl]
        rw [if_pos (by decide)]]
      rcases dropWhile_ws_aos hall.2 with hnil | ⟨c3, t3, hcons, halpha, haos3⟩
      · rw [show skipWs (X2 ++ ' ' :: '-' :: bs)
            = List.dropWhile isWs (X2 ++ ' ' :: '-' :: bs) from rfl]
        rw [dropWhile_append_nil hnil]
        rw [show List.dropWhile isWs (' ' :: '-' :: bs) = '-' :: bs from by
          rw [List.dropWhile_cons, if_pos (by decide), List.dropWhile_cons,
            if_neg (by decide)]]
        show (if isSch '-' = true then _ else false) = false
        rw [if_neg (by decide)]
      · rw [show skipWs (X2 ++ ' ' :: '-' :: bs)
            = List.dropWhile isWs (X2 ++ ' ' :: '-' :: bs) from rfl]
        rw [dropWhile_append_cons hcons]
        by_cases hS : isSch c3 = true
        · show (if isSch c3 = true then
              match digits1 (t3 ++ ' ' :: '-' :: bs) with
              | some (_, e :: r3) =>
                if isEch e = true then
                  match digits1 r3 with
                  | some (_, r4) => altA r4
                  | none => false
                else false
              | _ => false
            else false) = false
          rw [if_pos hS]
          have hnd : digits1 (t3 ++ ' ' :: '-' :: bs) = none := by
            cases t3 with
            | nil => exact digits1_cons_nondig (by decide)
            | cons y t4 =>
              have : aos y = true := by
                simp only [List.all_cons, Bool.and_eq_true] at haos3
                exact haos3.2.1
              exact digits1_cons_nondig (aos_not_dig this)
          rw [hnd]
        · show (if isSch c3 = true then
              match digits1 (t3 ++ ' ' :: '-' :: bs) with
              | some (_, e :: r3) =>
                if isEch e = true then
                  match digits1 r3 with
                  | some (_, r4) => altA r4
                  | none => false
                else false
              | _ => false
            else false) = false
          rw [if_neg hS]

theorem multiGo_cons_none {c : Char} {t : List Char} (hm : mMultiTail (c :: t) = false)
    (ht : multiGo t = none) : multiGo (c :: t) = none := by
  rw [show multiGo (c :: t)
      = (if mMultiTail (c :: t) then some []
         else if c = '\n' then none
         else (multiGo t).map (fun pre => c :: pre)) from rfl]
  rw [hm, ht]
  simp

theorem multiGo_nodig {l : List Char} (h : l.all (fun c => !isDig c) = true) :
    multiGo l = none := by
  induction l with
  | nil => rfl
  | cons c t ih =>
    exact multiGo_cons_none (mm_nodig h) (ih (all_of_sub (List.subset_cons_self c t) h))

theorem multiGo_dig_prefix {dl l : List Char} (hdl : dl.all isDig = true)
    (h : multiGo l = none) : multiGo (dl ++ l) = none := by
  induction dl with
  | nil => simpa
  | cons d t ih =>
    simp only [List.all_cons, Bool.and_eq_true] at hdl
    exact multiGo_cons_none (mm_nonws (dig_not_ws hdl.1)) (ih hdl.2)

theorem multiGo_B {ss ee : Nat} (hss : ss < 100) (hee : ee < 100) {rest : List Char}
    (hrd : rest.all (fun c => !isDig c) = true) :
    multiGo (' ' :: '-' :: ' ' :: 'S' :: (pad2 ss ++ 'E' :: (pad2 ee ++ rest))) = none := by
  have h4 : multiGo rest = none := multiGo_nodig hrd
  have h3 : multiGo (pad2 ee ++ rest) = none := multiGo_dig_prefix (pad2_all_dig hee) h4
  have h2 : multiGo ('E' :: (pad2 ee ++ rest)) = none :=
    multiGo_cons_none (mm_nonws (by decide)) h3
  have h1 : multiGo (pad2 ss ++ 'E' :: (pad2 ee ++ rest)) = none :=
    multiGo_dig_prefix (pad2_all_dig hss) h2
  have h0 : multiGo ('S' :: (pad2 ss ++ 'E' :: (pad2 ee ++ rest))) = none :=
    multiGo_cons_none (mm_nonws (by decide)) h1
  have hsp2 : multiGo (' ' :: 'S' :: (pad2 ss ++ 'E' :: (pad2 ee ++ rest))) = none :=
    multiGo_cons_none (mm_space2 hss hee hrd) h0
  have hdash : multiGo ('-' :: ' ' :: 'S' :: (pad2 ss ++ 'E' :: (pad2 ee ++ rest))) = none :=
    multiGo_cons_none (mm_nonws (by decide)) hsp2
  exact multiGo_cons_none mm_dashB hdash

theorem multiGo_XB {bs : List Char} {X : List Char} (hall : X.all aos = true)
    (hB : multiGo (' ' :: '-' :: bs) = none) :
    multiGo (X ++ ' ' :: '-' :: bs) = none := by
  induction X with
  | nil => simpa
  | cons c X2 ih =>
    simp only [List.all_cons, Bool.and_eq_true] at hall
    have hmm := @mm_aosXB bs (c :: X2) (by simp [List.all_cons, hall.1, hall.2])
    rw [List.cons_append] at hmm
    rw [List.cons_append]
    exact multiGo_cons_none hmm (ih hall.2)

theorem hrest_not_lb {rest : List Char}
    (h : rest.all (fun c => !isDig c && !(c = '[') && !(c = '(') && !(c = '\n')) = true) :
    '[' ∉ rest := by
  intro hm
  have := List.all_eq_true.mp h _ hm
  exact absurd this (by decide)

theorem hrest_not_lp {rest : List Char}
    (h : rest.all (fun c => !isDig c && !(c = '[') && !(c = '(') && !(c = '\n')) = true) :
    '(' ∉ rest := by
  intro hm
  have := List.all_eq_true.mp h _ hm
  exact absurd this (by decide)

theorem hrest_no_nl {rest : List Char}
    (h : rest.all (fun c => !isDig c && !(c = '[') && !(c = '(') && !(c = '\n')) = true) :
    ∀ c ∈ rest, ¬(c = '\n') := by
  intro c hc heq
  subst heq
  have := List.all_eq_true.mp h _ hc
  exact absurd this (by decide)

theorem strCI_subset : ∀ (p l r : List Char), strCI p l = some r → r ⊆ l := by
  intro p
  induction p with
  | nil =>
    intro l r h
    simp only [strCI, Option.some.injEq] at h
    subst h
    exact fun x hx => hx
  | cons a ps ih =>
    intro l r h
    cases l with
    | nil => simp [strCI] at h
    | cons c cs =>
      rw [show strCI (a :: ps) (c :: cs) = (if ciEq a c then strCI ps cs else none) from rfl] at h
      split at h
      · exact fun x hx => List.mem_cons_of_mem c (ih cs r h hx)
      · simp at h

theorem mBracket_none {l : List Char} (h : '[' ∉ l) : mBracket l = none := by
  rw [show mBracket l
      = (match skipWs l with
        | c :: r2 => if c = '[' then mBracket.bracketClose r2 else none
        | [] => none) from rfl]
  cases hd : skipWs l with
  | nil => simp only [hd]
  | cons c r2 =>
    have hc : c ∈ l := dropWhile_subset l (hd ▸ List.mem_cons_self c r2)
    have hne : ¬(c = '[') := fun e => h (e ▸ hc)
    simp only [hd]
    rw [if_neg hne]

theorem subBracketsAux_id : ∀ (fuel : Nat) (l : List Char), '[' ∉ l →
    subBracketsAux fuel l = l := by
  intro fuel
  induction fuel with
  | zero => intro l _; rfl
  | succ f ih =>
    intro l h
    cases l with
    | nil => rfl
    | cons c t =>
      rw [show subBracketsAux (f + 1) (c :: t)
          = (match mBracket (c :: t) with
            | some rest => subBracketsAux f rest
            | none => c :: subBracketsAux f t) from rfl]
      rw [mBracket_none h]
      rw [ih t (fun hm => h (List.mem_cons_of_mem c hm))]

theorem subBrackets_id {l : List Char} (h : '[' ∉ l) : subBrackets l = l :=
  subBracketsAux_id l.length l h

theorem mTrailParen_false {l : List Char} (h : '(' ∉ l) : mTrailParen l = false := by
  rw [show mTrailParen l
      = (match skipWs l with
        | c :: r2 =>
          if c = '(' then
            match r2.dropWhile (fun x => !(x = ')')) with
            | ')' :: r4 => (skipWs r4).isEmpty
            | _ => false
          else false
        | [] => false) from rfl]
  cases hd : skipWs l with
  | nil => simp only [hd]
  | cons c r2 =>
    have hc : c ∈ l := dropWhile_subset l (hd ▸ List.mem_cons_self c r2)
    have hne : ¬(c = '(') := fun e => h (e ▸ hc)
    simp only [hd]
    rw [if_neg hne]

theorem subTrailParens_id : ∀ {l : List Char}, '(' ∉ l → subTrailParens l = l := by
  intro l
  induction l with
  | nil => intro _; rfl
  | cons c t ih =>
    intro h
    rw [show subTrailParens (c :: t)
        = (if mTrailParen (c :: t) then [] else c :: subTrailParens t) from rfl]
    rw [mTrailParen_false h]
    simp only [Bool.false_eq_true, if_false]
    rw [ih (fun hm => h (List.mem_cons_of_mem c hm))]

theorem tailOK_true {l : List Char} (h : ∀ c ∈ l, ¬(c = '\n')) : tailOK l = true := by
  have hd : l.dropWhile (fun c => !(c = '\n')) = [] :=
    List.dropWhile_eq_nil_iff.mpr (fun x hx => by simpa using h x hx)
  rw [show tailOK l
      = (match l.dropWhile (fun c => !(c = '\n')) with
        | [] => true
        | ['\n'] => true
        | _ => false) from rfl]
  simp only [hd]

theorem ofClause_none {l : List Char} (h : l.all (fun c => !isDig c) = true) :
    ofClause l = none := by
  cases hs : strCI ['o', 'f'] (skipWs l) with
  | none => simp [ofClause, Bind.bind, Option.bind, hs]
  | some r =>
    have hsub : skipWs r ⊆ l := fun x hx =>
      dropWhile_subset l (strCI_subset _ _ _ hs (dropWhile_subset r hx))
    have hd := digits1_none_of_nodig (all_of_sub hsub h)
    simp [ofClause, Bind.bind, Option.bind, hs, hd]

theorem dashNumClause_none {l : List Char} (h : l.all (fun c => !isDig c) = true) :
    dashNumClause l = none := by
  rw [show dashNumClause l
      = (match skipWs l with
        | c :: r => if c = '-' then (digits1 (skipWs r)).map Prod.snd else none
        | [] => none) from rfl]
  cases hd : skipWs l with
  | nil => simp only [hd]
  | cons c r =>
    have hsub : skipWs r ⊆ l := fun x hx =>
      dropWhile_subset l (hd ▸ List.mem_cons_of_mem c (dropWhile_subset r hx))
    have hnone := digits1_none_of_nodig (all_of_sub hsub h)
    simp only [hd]
    by_cases hc : c = '-'
    · rw [if_pos hc, hnone]; rfl
    · rw [if_neg hc]

theorem optChain_true {rest : List Char}
    (hnd : rest.all (fun c => !isDig c) = true)
    (hlb : '[' ∉ rest) (hnl : ∀ c ∈ rest, ¬(c = '\n')) :
    optThen ofClause (optThen dashNumClause (optThen bracketClause tailOK)) rest = true := by
  simp only [optThen, ofClause_none hnd, dashNumClause_none hnd,
    show bracketClause rest = mBracket rest from rfl, mBracket_none hlb]
  exact tailOK_true hnl

theorem dropTrailing_id {p : Char → Bool} {l : List Char}
    (h : ∀ c, l.getLast? = some c → p c = false) : dropTrailing p l = l := by
  unfold dropTrailing
  cases hr : l.reverse with
  | nil =>
    have : l = [] := by simpa using congrArg List.reverse hr
    subst this
    rfl
  | cons c t =>
    have hlast : l.getLast? = some c := by
      rw [← List.head?_reverse, hr]; rfl
    rw [List.dropWhile_cons, if_neg (by simp [h c hlast])]
    rw [← hr, List.reverse_reverse]

theorem skipWs_cons_ws {c : Char} {t : List Char} (h : isWs c = true) :
    skipWs (c :: t) = skipWs t := by
  simp [skipWs, List.dropWhile_cons, h]

theorem p1At_B_true {ss ee : Nat} (hss : ss < 100) (hee : ee < 100) {rest : List Char}
    (hrest : rest.all (fun c => !isDig c && !(c = '[') && !(c = '(') && !(c = '\n')) = true) :
    p1At (c7B ss ee rest) = true := by
  have hnd := all_nodig_of_hrest hrest
  have h0 : skipWs (c7B ss ee rest)
      = '-' :: ' ' :: 'S' :: (pad2 ss ++ 'E' :: (pad2 ee ++ rest)) := by
    rw [show c7B ss ee rest
        = ' ' :: '-' :: ' ' :: 'S' :: (pad2 ss ++ 'E' :: (pad2 ee ++ rest)) from rfl]
    rw [skipWs_cons_ws (by decide), skipWs_cons_nonws (by decide)]
  have h1 : skipWs (' ' :: 'S' :: (pad2 ss ++ 'E' :: (pad2 ee ++ rest)))
      = 'S' :: (pad2 ss ++ 'E' :: (pad2 ee ++ rest)) := by
    rw [skipWs_cons_ws (by decide), skipWs_cons_nonws (by decide)]
  have h2 := digits1_pad2_cons hss 'E' (by decide) (pad2 ee ++ rest)
  have h3 := digits1_pad2_gen hee hnd
  have h4 := optChain_true hnd (hrest_not_lb hrest) (hrest_no_nl hrest)
  simp [p1At, h0, h1, h2, h3, h4]
  exact ⟨by decide, by decide⟩

theorem p1At_aosX_false {X : List Char} {l : List Char} (hall : X.all aos = true)
    (hal : ∃ a ∈ X, a.isAlpha = true) :
    p1At (X ++ l) = false := by
  rcases dropWhile_ws_aos hall with hnil | ⟨c, t, hd, hca, -⟩
  · exfalso
    obtain ⟨a, hmem, ha⟩ := hal
    have hws : isWs a = true := List.dropWhile_eq_nil_iff.mp hnil a hmem
    rw [alpha_not_ws ha] at hws
    exact Bool.false_ne_true hws
  · have hskip : skipWs (X ++ l) = c :: (t ++ l) := dropWhile_append_cons hd
    have hne : (!(c = '-')) = true := by simp [alpha_ne_dash hca]
    simp [p1At, hskip, hne]

theorem searchIdx_p1 {ss ee : Nat} (hss : ss < 100) (hee : ee < 100) {rest : List Char}
    (hrest : rest.all (fun c => !isDig c && !(c = '[') && !(c = '(') && !(c = '\n')) = true) :
    ∀ (X : List Char), X.all aos = true →
    (∀ c, X.getLast? = some c → c.isAlpha = true) →
    searchIdx p1At (X ++ c7B ss ee rest) = some X.length := by
  intro X
  induction X with
  | nil =>
    intro _ _
    rw [List.nil_append]
    rw [show searchIdx p1At (c7B ss ee rest)
        = (if p1At (c7B ss ee rest) then some 0
           else (searchIdx p1At
             ('-' :: ' ' :: 'S' :: (pad2 ss ++ 'E' :: (pad2 ee ++ rest)))).map (· + 1))
        from rfl]
    rw [p1At_B_true hss hee hrest]
    rfl
  | cons c X2 ih =>
    intro hall hlast
    simp only [List.all_cons, Bool.and_eq_true] at hall
    have halpha : ∃ a ∈ c :: X2, a.isAlpha = true := by
      cases X2 with
      | nil =>
        exact ⟨c, List.mem_cons_self c [], hlast c rfl⟩
      | cons b Y =>
        refine ⟨(b :: Y).getLast (by simp), List.mem_cons_of_mem c (List.getLast_mem _), ?_⟩
        apply hlast
        rw [List.getLast?_cons_cons]
        rfl
    have hfalse : p1At ((c :: X2) ++ c7B ss ee rest) = false :=
      p1At_aosX_false (by simp [List.all_cons, hall.1, hall.2]) halpha
    rw [List.cons_append] at hfalse
    rw [List.cons_append]
    rw [show searchIdx p1At (c :: (X2 ++ c7B ss ee rest))
        = (if p1At (c :: (X2 ++ c7B ss ee rest)) then some 0
           else (searchIdx p1At (X2 ++ c7B ss ee rest)).map (· + 1)) from rfl]
    rw [hfalse]
    have hlast2 : ∀ c', X2.getLast? = some c' → c'.isAlpha = true := by
      cases X2 with
      | nil => intro c' h; simp at h
      | cons b Y =>
        intro c' h
        apply hlast
        rw [List.getLast?_cons_cons]
        exact h
    rw [if_neg (by simp)]
    rw [ih hall.2 hlast2]
    simp [List.length_cons]

theorem searchG_cons_none {α : Type} {m : List Char → Option α} {c : Char} {t : List Char}
    (hm : m (c :: t) = none) : searchG m (c :: t) = searchG m t := by
  rw [show searchG m (c :: t)
      = (match m (c :: t) with
        | some g => some g
        | none => searchG m t) from rfl]
  rw [hm]

theorem m_Sdigits_cons_notS {c : Char} {t : List Char} (h : isSch c = false) :
    m_Sdigits (c :: t) = none := by
  rw [show m_Sdigits (c :: t)
      = (if isSch c then (digits1 t).map Prod.fst else none) from rfl]
  rw [h]
  rfl

theorem searchG_mSdig_B {ss ee : Nat} (hss : ss < 100) {rest : List Char} :
    searchG m_Sdigits (c7B ss ee rest) = some (pad2 ss) := by
  have hS : m_Sdigits ('S' :: (pad2 ss ++ 'E' :: (pad2 ee ++ rest))) = some (pad2 ss) := by
    rw [show m_Sdigits ('S' :: (pad2 ss ++ 'E' :: (pad2 ee ++ rest)))
        = (if isSch 'S' then (digits1 (pad2 ss ++ 'E' :: (pad2 ee ++ rest))).map Prod.fst
           else none) from rfl]
    rw [if_pos (by decide), digits1_pad2_cons hss 'E' (by decide) (pad2 ee ++ rest)]
    rfl
  rw [show c7B ss ee rest
      = ' ' :: '-' :: ' ' :: 'S' :: (pad2 ss ++ 'E' :: (pad2 ee ++ rest)) from rfl]
  rw [searchG_cons_none (m_Sdigits_cons_notS (by decide))]
  rw [searchG_cons_none (m_Sdigits_cons_notS (by decide))]
  rw [searchG_cons_none (m_Sdigits_cons_notS (by decide))]
  exact searchG_cons_some hS

theorem searchG_mSdig_XB {ss ee : Nat} (hss : ss < 100) {rest : List Char} :
    ∀ (X : List Char), X.all aos = true →
    searchG m_Sdigits (X ++ c7B ss ee rest) = some (pad2 ss) := by
  intro X
  induction X with
  | nil =>
    intro _
    rw [List.nil_append]
    exact searchG_mSdig_B hss
  | cons c X2 ih =>
    intro hall
    simp only [List.all_cons, Bool.and_eq_true] at hall
    have hnone : m_Sdigits (c :: (X2 ++ c7B ss ee rest)) = none := by
      rw [show m_Sdigits (c :: (X2 ++ c7B ss ee rest))
          = (if isSch c then (digits1 (X2 ++ c7B ss ee rest)).map Prod.fst else none)
          from rfl]
      by_cases hS : isSch c = true
      · rw [if_pos hS]
        have hd1 : digits1 (X2 ++ c7B ss ee rest) = none := by
          cases X2 with
          | nil =>
            rw [List.nil_append]
            rw [show c7B ss ee rest
                = ' ' :: '-' :: ' ' :: 'S' :: (pad2 ss ++ 'E' :: (pad2 ee ++ rest)) from rfl]
            exact digits1_cons_nondig (by decide)
          | cons y Y =>
            simp only [List.all_cons, Bool.and_eq_true] at hall
            rw [List.cons_append]
            exact digits1_cons_nondig (aos_not_dig hall.2.1)
        rw [hd1]
        rfl
      · rw [if_neg hS]
    rw [List.cons_append, searchG_cons_none hnone]
    exact ih hall.2

theorem c7B_mem {ss ee : Nat} (hss : ss < 100) (hee : ee < 100) {rest : List Char} {a : Char}
    (hm : a ∈ c7B ss ee rest) :
    a = ' ' ∨ a = '-' ∨ a = 'S' ∨ a = 'E' ∨ isDig a = true ∨ a ∈ rest := by
  rw [show c7B ss ee rest
      = ' ' :: '-' :: ' ' :: 'S' :: (pad2 ss ++ 'E' :: (pad2 ee ++ rest)) from rfl] at hm
  simp only [List.mem_cons, List.mem_append] at hm
  rcases hm with h | h | h | h | h | h | h | h
  · exact Or.inl h
  · exact Or.inr (Or.inl h)
  · exact Or.inl h
  · exact Or.inr (Or.inr (Or.inl h))
  · exact Or.inr (Or.inr (Or.inr (Or.inr (Or.inl (pad2_mem_dig hss h)))))
  · exact Or.inr (Or.inr (Or.inr (Or.inl h)))
  · exact Or.inr (Or.inr (Or.inr (Or.inr (Or.inl (pad2_mem_dig hee h)))))
  · exact Or.inr (Or.inr (Or.inr (Or.inr (Or.inr h))))

theorem c7B_not_lb {ss ee : Nat} (hss : ss < 100) (hee : ee < 100) {rest : List Char}
    (hrest : rest.all (fun c => !isDig c && !(c = '[') && !(c = '(') && !(c = '\n')) = true) :
    '[' ∉ c7B ss ee rest := by
  intro hm
  rcases c7B_mem hss hee hm with h | h | h | h | h | h
  · exact absurd h (by decide)
  · exact absurd h (by decide)
  · exact absurd h (by decide)
  · exact absurd h (by decide)
  · exact absurd h (by decide)
  · exact hrest_not_lb hrest h

theorem c7B_not_lp {ss ee : Nat} (hss : ss < 100) (hee : ee < 100) {rest : List Char}
    (hrest : rest.all (fun c => !isDig c && !(c = '[') && !(c = '(') && !(c = '\n')) = true) :
    '(' ∉ c7B ss ee rest := by
  intro hm
  rcases c7B_mem hss hee hm with h | h | h | h | h | h
  · exact absurd h (by decide)
  · exact absurd h (by decide)
  · exact absurd h (by decide)
  · exact absurd h (by decide)
  · exact absurd h (by decide)
  · exact hrest_not_lp hrest h

theorem c7B_getLast_not_ws {ss ee : Nat} (hee : ee < 100) {rest : List Char}
    (hrlast : ∀ c, rest.getLast? = some c → isWs c = false) :
    ∀ c, (c7B ss ee rest).getLast? = some c → isWs c = false := by
  intro c hc
  cases hr : rest with
  | nil =>
    rw [hr] at hc
    have h1 : c7B ss ee [] = (' ' :: '-' :: ' ' :: 'S' :: (pad2 ss ++ ['E'])) ++ pad2 ee := by
      simp [c7B, List.append_assoc]
    rw [h1, List.getLast?_append_of_ne_nil _ (pad2_ne_nil hee)] at hc
    exact dig_not_ws (pad2_mem_dig hee (List.mem_of_mem_getLast? hc))
  | cons r0 rs =>
    rw [hr] at hc
    have h1 : c7B ss ee (r0 :: rs)
        = (' ' :: '-' :: ' ' :: 'S' :: (pad2 ss ++ 'E' :: pad2 ee)) ++ (r0 :: rs) := by
      simp [c7B, List.append_assoc]
    rw [h1, List.getLast?_append_of_ne_nil _ (by simp)] at hc
    exact hrlast c (by rw [hr]; exact hc)

theorem c7_base {X : List Char} {ss ee : Nat} {rest : List Char}
    (hall : X.all aos = true)
    (hhead : ∀ c, X.head? = some c → c.isAlpha = true)
    (hlast : ∀ c, X.getLast? = some c → c.isAlpha = true)
    (hlen : 2 ≤ X.length)
    (hss : ss < 100) (hee : ee < 100)
    (hrest : rest.all (fun c => !isDig c && !(c = '[') && !(c = '(') && !(c = '\n')) = true)
    (hrlast : ∀ c, rest.getLast? = some c → isWs c = false) :
    extract_base_series_name ⟨X ++ c7B ss ee rest⟩ = some ⟨X⟩ := by
  have hndig := all_nodig_of_hrest hrest
  obtain ⟨x, X2, rfl⟩ : ∃ x X2, X = x :: X2 := by
    cases X with
    | nil => simp at hlen
    | cons a b => exact ⟨a, b, rfl⟩
  have hx : x.isAlpha = true := hhead x rfl
  have hlbT : '[' ∉ (x :: X2) ++ c7B ss ee rest := by
    intro hm
    rcases List.mem_append.mp hm with h | h
    · have := List.all_eq_true.mp hall _ h
      exact aos_ne_lbracket this rfl
    · exact c7B_not_lb hss hee hrest h
  have hlpT : '(' ∉ (x :: X2) ++ c7B ss ee rest := by
    intro hm
    rcases List.mem_append.mp hm with h | h
    · have := List.all_eq_true.mp hall _ h
      exact aos_ne_lparen this rfl
    · exact c7B_not_lp hss hee hrest h
  have hstripT : pyStrip ((x :: X2) ++ c7B ss ee rest) = (x :: X2) ++ c7B ss ee rest := by
    apply pyStrip_id
    · intro c h
      rw [List.cons_append] at h
      cases h
      exact alpha_not_ws hx
    · intro c h
      rw [List.getLast?_append_of_ne_nil _ (by simp [c7B])] at h
      exact c7B_getLast_not_ws hee hrlast c h
  have hsubB := subBrackets_id hlbT
  have hsubP := subTrailParens_id hlpT
  have hmulti : multiGo ((x :: X2) ++ c7B ss ee rest) = none := by
    rw [show c7B ss ee rest
        = ' ' :: '-' :: ' ' :: 'S' :: (pad2 ss ++ 'E' :: (pad2 ee ++ rest)) from rfl]
    exact multiGo_XB hall (multiGo_B hss hee hndig)
  have hsearch : seasonPatternsSearch ((x :: X2) ++ c7B ss ee rest) = some (x :: X2).length := by
    simp only [seasonPatternsSearch, searchIdx_p1 hss hee hrest (x :: X2) hall hlast]
  have hstripX : pyStrip (x :: X2) = x :: X2 := by
    apply pyStrip_id
    · intro c h
      cases h
      exact alpha_not_ws hx
    · intro c h
      exact alpha_not_ws (hlast c h)
  have hdt1 : dropTrailing isWs (x :: X2) = x :: X2 :=
    dropTrailing_id (fun c h => alpha_not_ws (hlast c h))
  have hdt2 : dropTrailing (fun c => isWs c || c = '-') (x :: X2) = x :: X2 := by
    apply dropTrailing_id
    intro c h
    have ha := hlast c h
    simp [alpha_not_ws ha, alpha_ne_dash ha]
  simp only [extract_base_series_name, hstripT, hsubB, hsubP, hmulti, hsearch,
    List.take_left, hstripX, hdt1, hdt2]
  rw [if_pos hlen]

theorem c7_season {X : List Char} {ss ee : Nat} {rest : List Char}
    (hall : X.all aos = true) (hss : ss < 100) :
    extract_season_number ⟨X ++ c7B ss ee rest⟩ = some ⟨pad2 ss⟩ := by
  simp only [extract_season_number,
    show (String.mk (X ++ c7B ss ee rest)).data = X ++ c7B ss ee rest from rfl,
    searchG_mSdig_XB hss X hall]

/-- **C7** counterexample: the title `"AB - S01E02 S03E04-E05"` has the shape
`X - S{ss}E{ee} ...` with `X = "AB"`, `ss = 1`, `ee = 2`, yet
`_extract_base_series_name` returns `"AB - S01E02"` (the stripped `group(1)` of
the multi-episode pattern, whose alternation matches at `" S03E04-E05"`), not the
trimmed `X`. -/
theorem c7_counterexample_multi_episode :
    (("AB - S01E02 S03E04-E05" : String).data
      = ['A', 'B'] ++ c7B 1 2 (" S03E04-E05" : String).data) ∧
    extract_base_series_name "AB - S01E02 S03E04-E05" = some "AB - S01E02" ∧
    ¬ extract_base_series_name "AB - S01E02 S03E04-E05" = some "AB" := by
  refine ⟨by decide, by decide, by decide⟩

/-- **C7** (amended): for a title `X ++ " - S" ++ pad2 ss ++ "E" ++ pad2 ee ++ rest`
where `X` is made of letters and spaces, starts and ends with a letter, and has
length at least 2, `ss, ee < 100`, and `rest` contains no digit, no `[`, no `(`
and no newline and does not end in whitespace, `_extract_base_series_name`
returns exactly `X` and `_extract_season_number` returns the digit group
`pad2 ss`, whose integer value is `ss`. -/
theorem c7_amended_base_and_season (X : List Char) (ss ee : Nat) (rest : List Char)
    (hall : X.all aos = true)
    (hhead : ∀ c, X.head? = some c → c.isAlpha = true)
    (hlast : ∀ c, X.getLast? = some c → c.isAlpha = true)
    (hlen : 2 ≤ X.length)
    (hss : ss < 100) (hee : ee < 100)
    (hrest : rest.all (fun c => !isDig c && !(c = '[') && !(c = '(') && !(c = '\n')) = true)
    (hrlast : ∀ c, rest.getLast? = some c → isWs c = false) :
    extract_base_series_name ⟨X ++ c7B ss ee rest⟩ = some ⟨X⟩ ∧
    extract_season_number ⟨X ++ c7B ss ee rest⟩ = some ⟨pad2 ss⟩ ∧
    pyInt (pad2 ss) = Except.ok ss :=
  ⟨c7_base hall hhead hlast hlen hss hee hrest hrlast, c7_season hall hss, pyInt_pad2 hss⟩

theorem c7_amended_base_and_season_witness :
    extract_base_series_name
        ⟨['T', 'e', 's', 't', ' ', 'S', 'h', 'o', 'w'] ++ c7B 2 5 [' ', 'I', 'T', 'A']⟩
      = some "Test Show" ∧
    extract_season_number
        ⟨['T', 'e', 's', 't', ' ', 'S', 'h', 'o', 'w'] ++ c7B 2 5 [' ', 'I', 'T', 'A']⟩
      = some "02" ∧
    pyInt (pad2 2) = Except.ok 2 :=
  c7_amended_base_and_season ['T', 'e', 's', 't', ' ', 'S', 'h', 'o', 'w'] 2 5 [' ', 'I', 'T', 'A']
    (by decide)
    (by intro c h; cases h; decide)
    (by intro c h; cases h; decide)
    (by decide) (by decide) (by decide) (by decide)
    (by intro c h; cases h; decide)

end Mircrew
